import Mathlib

/-!
Shallow embedding of the voxel-world core of the Rust3D repository
(src/world/chunk.rs and src/world/world.rs), and proofs of the
specification claims about it.

Modelling conventions:
* Machine integers (i32, i64, usize) are modelled as Int / Nat; two's
  complement wrap-around and integer casts are written out explicitly
  (wrap64, xor64, castUsize) where the source relies on them.  The small
  i32 additions and multiplications inside the ore formulas are modelled
  as exact Int arithmetic.  The Rust remainder operator on i32 truncates
  toward zero, which is Int.tmod.
* f32 quantities are modelled as exact rationals; f32-to-i32 conversions
  saturate, as in Rust (floorToI32 / ceilToI32).
* The trigonometric noise fields of chunk.rs (noise, biome_at,
  terrain_height) are floating-point trigonometry and enter the embedding
  as parameters (B : Int → Int → Biome for biome_at, and
  H : Int → Int → Biome → Nat for terrain_height); everything built on top
  of them (stone_with_ores, terrain_block_at, procedural_block_at) is
  embedded concretely.  The height is clamped at the use sites exactly as
  in the source.  cgmath's f32 vector normalize is likewise a parameter of
  place_block_from_ray.
* The Vec backing stores of Chunk are modelled as functions from the
  linear index, with the source's index arithmetic kept verbatim.
* Mutating methods become functions returning the updated structure;
  imperative loops become folds or structural recursions over the
  explicit, in-order sequence of indices the source iterates.
* The cosmetic particle bursts (spawn_particles) use floating-point
  trigonometry and are consulted by no claim; the particle list is kept in
  World for shape but left unchanged by the modelled operations.
-/

set_option linter.unusedVariables false

/-- Block enum of chunk.rs. -/
inductive Block where
  | Air | Grass | Dirt | Stone | Sand | Wood | Planks | Bricks | Glass | Leaf
  | Snow | Target | Water | Mud | Cobblestone | CoalOre | IronOre | GoldOre
  | DiamondOre | Gravel | Clay | Basalt | Moss | RedSand | Ice | Cactus
  deriving DecidableEq

/-- Biome enum of chunk.rs. -/
inductive Biome where
  | Plains | Forest | Desert | Snow | Mountains | Swamp
  deriving DecidableEq

abbrev CHUNK_WIDTH : Nat := 512
abbrev CHUNK_DEPTH : Nat := 512
abbrev CHUNK_HEIGHT : Nat := 96
abbrev CHUNK_REGION_SIZE : Nat := 16

/-- Two's-complement wrap-around to a 64-bit signed integer. -/
def wrap64 (v : Int) : Int := (v + 2 ^ 63) % 2 ^ 64 - 2 ^ 63

/-- Bitwise xor of two i64 values via their 64-bit two's-complement bit
patterns. -/
def xor64 (a b : Int) : Int :=
  wrap64 (Int.ofNat (Nat.xor (a % 2 ^ 64).toNat (b % 2 ^ 64).toNat))

/-- Rust cast of an i32 value to a 64-bit usize (sign-extending
reinterpretation), as used by explode_at via break_block. -/
def castUsize (i : Int) : Nat := (i % 2 ^ 64).toNat

/-- stone_with_ores of chunk.rs: deep-layer material keyed by depth bands
and cheap positional hashes. -/
def stone_with_ores (x : Int) (y : Nat) (z : Int) : Block :=
  let h := (xor64 (wrap64 (x * 73856093)) (wrap64 (z * 19349663))).natAbs
  let salt := h % 65537
  let yi : Int := (y : Int)
  if y < 10 ∧ (x + z + yi).tmod 43 = 0 then Block.DiamondOre
  else if y < 20 ∧ (x * 3 + z * 5 + yi).tmod 37 = 0 then Block.GoldOre
  else if y < 34 ∧ (x * 7 + z * 11 + yi * 2).tmod 29 = 0 then Block.IronOre
  else if y < 40 ∧ (x * 13 + z * 17 + yi * 3).tmod 19 = 0 then Block.CoalOre
  else if y < 14 then Block.Basalt
  else if y < 26 ∧ (salt + y) % 9 = 0 then Block.Gravel
  else if y < 28 ∧ (salt + y * 3) % 21 = 0 then Block.Clay
  else Block.Stone

/-- terrain_block_at of chunk.rs: per-cell material from biome, surface
height and sea level. -/
def terrain_block_at (wx : Int) (y : Nat) (wz : Int) (biome : Biome)
    (h : Nat) (sea_level : Nat) : Block :=
  if h < y then
    (if y ≤ sea_level then
      (if biome = Biome.Snow then Block.Ice else Block.Water)
    else Block.Air)
  else
    let depth := h - y
    match biome with
    | Biome.Desert =>
        if depth = 0 then Block.Sand
        else if depth < 4 then Block.RedSand
        else stone_with_ores wx y wz
    | Biome.Snow =>
        if depth = 0 then Block.Snow
        else if depth < 3 then Block.Dirt
        else stone_with_ores wx y wz
    | Biome.Swamp =>
        if depth = 0 then Block.Moss
        else if depth < 4 then Block.Mud
        else stone_with_ores wx y wz
    | Biome.Mountains =>
        if depth = 0 ∧ 52 < h then Block.Snow
        else stone_with_ores wx y wz
    | Biome.Forest => if depth = 0 then Block.Grass
        else if depth < 4 then Block.Dirt
        else stone_with_ores wx y wz
    | Biome.Plains => if depth = 0 then Block.Grass
        else if depth < 4 then Block.Dirt
        else stone_with_ores wx y wz

/-- procedural_block_at of chunk.rs: the out-of-bounds fallback, with the
biome field B and the raw terrain height H as parameters (they are
floating-point noise in the source); the height is clamped to
[8, CHUNK_HEIGHT - 2] exactly as in the source, and sea level is 30. -/
def procedural_block_at (B : Int → Int → Biome) (H : Int → Int → Biome → Nat)
    (x : Int) (y : Nat) (z : Int) : Block :=
  let biome := B x z
  let h := min (max (H x z biome) 8) (CHUNK_HEIGHT - 2)
  terrain_block_at x y z biome h 30

/-- Chunk of chunk.rs: dense block array (as a function from the linear
index), dirty-region bitmap (as a function from the region index), and the
world-space origin offset. -/
structure Chunk where
  blocks : Nat → Block
  dirty_regions : Nat → Bool
  origin_x : Int
  origin_z : Int

/-- Chunk::new: all-air volume, every region dirty, origin at minus half
the horizontal extents. -/
def Chunk.new : Chunk where
  blocks := fun _ => Block.Air
  dirty_regions := fun _ => true
  origin_x := -(CHUNK_WIDTH : Int) / 2
  origin_z := -(CHUNK_DEPTH : Int) / 2

/-- Chunk::index: linear offset of a cell, x + z * W + y * W * D. -/
def Chunk.index (x y z : Nat) : Nat :=
  x + z * CHUNK_WIDTH + y * CHUNK_WIDTH * CHUNK_DEPTH

abbrev regions_x : Nat := CHUNK_WIDTH / CHUNK_REGION_SIZE
abbrev regions_y : Nat := CHUNK_HEIGHT / CHUNK_REGION_SIZE
abbrev regions_z : Nat := CHUNK_DEPTH / CHUNK_REGION_SIZE

/-- Chunk::region_index: linear offset of a region,
rx + rz * regions_x + ry * regions_x * regions_z. -/
def Chunk.region_index (rx ry rz : Nat) : Nat :=
  rx + rz * regions_x + ry * regions_x * regions_z

/-- The 27 signed region offsets dx, dy, dz ∈ [-1, 1], in the iteration
order of mark_region_dirty_by_block (dx outermost, dz innermost). -/
def neighborOffsets : List (Int × Int × Int) :=
  ([-1, 0, 1] : List Int).flatMap fun dx =>
    ([-1, 0, 1] : List Int).flatMap fun dy =>
      ([-1, 0, 1] : List Int).map fun dz => (dx, dy, dz)

/-- Loop body of mark_region_dirty_by_block for one signed offset d around
the home region (rx, ry, rz): skip offsets leaving the region grid,
otherwise set the neighbor's dirty flag. -/
def Chunk.markStep (rx ry rz : Nat) (c2 : Chunk) (d : Int × Int × Int) : Chunk :=
  let nrx := (rx : Int) + d.1
  let nry := (ry : Int) + d.2.1
  let nrz := (rz : Int) + d.2.2
  if nrx < 0 ∨ nry < 0 ∨ nrz < 0 ∨ (regions_x : Int) ≤ nrx ∨
      (regions_y : Int) ≤ nry ∨ (regions_z : Int) ≤ nrz then c2
  else
    { c2 with dirty_regions := fun i =>
        if i = Chunk.region_index nrx.toNat nry.toNat nrz.toNat then true
        else c2.dirty_regions i }

/-- Chunk::mark_region_dirty_by_block: set the dirty flag of the region of
cell (x, y, z) and of each of its up-to-26 in-grid neighbor regions. -/
def Chunk.mark_region_dirty_by_block (c : Chunk) (x y z : Nat) : Chunk :=
  neighborOffsets.foldl
    (Chunk.markStep (x / CHUNK_REGION_SIZE) (y / CHUNK_REGION_SIZE)
      (z / CHUNK_REGION_SIZE)) c

/-- The region triples (rx, ry, rz) in the iteration order of
take_dirty_regions (ry outermost, then rz, then rx). -/
def regionTriples : List (Nat × Nat × Nat) :=
  (List.range regions_y).flatMap fun ry =>
    (List.range regions_z).flatMap fun rz =>
      (List.range regions_x).map fun rx => (rx, ry, rz)

/-- Loop body of take_dirty_regions for one region triple t: when its
dirty flag is set, clear the flag and append the triple to the output. -/
def Chunk.takeStep (s : List (Nat × Nat × Nat) × Chunk) (t : Nat × Nat × Nat) :
    List (Nat × Nat × Nat) × Chunk :=
  let idx := Chunk.region_index t.1 t.2.1 t.2.2
  if s.2.dirty_regions idx then
    (s.1 ++ [t],
     { s.2 with dirty_regions := fun i =>
         if i = idx then false else s.2.dirty_regions i })
  else s

/-- Chunk::take_dirty_regions: collect every region whose dirty flag is
set, clearing each collected flag, in loop order. -/
def Chunk.take_dirty_regions (c : Chunk) : List (Nat × Nat × Nat) × Chunk :=
  regionTriples.foldl Chunk.takeStep ([], c)

/-- Chunk::get_i32: world-frame lookup; air outside the vertical extent,
the stored cell when the origin-translated coordinate is inside the
horizontal extents, and the procedural fallback otherwise. -/
def Chunk.get_i32 (B : Int → Int → Biome) (H : Int → Int → Biome → Nat)
    (c : Chunk) (x y z : Int) : Block :=
  if y < 0 ∨ (CHUNK_HEIGHT : Int) ≤ y then Block.Air
  else
    let lx := x - c.origin_x
    let lz := z - c.origin_z
    if 0 ≤ lx ∧ 0 ≤ lz ∧ lx < (CHUNK_WIDTH : Int) ∧ lz < (CHUNK_DEPTH : Int) then
      c.blocks (Chunk.index lx.toNat y.toNat lz.toNat)
    else
      procedural_block_at B H x y.toNat z

/-- Chunk::set: local-frame write; a no-op outside the extents, and inside
them the cell is updated and the neighborhood marked dirty only when the
stored value actually changes. -/
def Chunk.set (c : Chunk) (x y z : Nat) (block : Block) : Chunk :=
  if x < CHUNK_WIDTH ∧ y < CHUNK_HEIGHT ∧ z < CHUNK_DEPTH then
    let idx := Chunk.index x y z
    if c.blocks idx ≠ block then
      Chunk.mark_region_dirty_by_block
        { c with blocks := fun i => if i = idx then block else c.blocks i }
        x y z
    else c
  else c

/-- Bullet of world.rs. -/
structure Bullet where
  position : ℚ × ℚ × ℚ
  velocity : ℚ × ℚ × ℚ
  damage : ℚ
  max_distance : ℚ
  traveled : ℚ

/-- Mob of world.rs. -/
structure Mob where
  position : ℚ × ℚ × ℚ
  health : ℚ
  radius : ℚ
  height : ℚ
  velocity_y : ℚ
  grounded : Bool
  jump_cooldown : ℚ
  attack_cooldown : ℚ

/-- Particle of world.rs (cosmetic; consulted by no claim). -/
structure Particle where
  position : ℚ × ℚ × ℚ
  velocity : ℚ × ℚ × ℚ
  life : ℚ
  color : ℚ × ℚ × ℚ
  size : ℚ

/-- Explosive of world.rs. -/
structure Explosive where
  position : ℚ × ℚ × ℚ
  velocity : ℚ × ℚ × ℚ
  timer : ℚ
  radius : ℚ

abbrev MAX_MOBS : Nat := 20

/-- World of world.rs: one chunk plus the entity collections. -/
structure World where
  chunk : Chunk
  bullets : List Bullet
  mobs : List Mob
  particles : List Particle
  explosives : List Explosive
  spawn_timer : ℚ

/-- Saturating floor conversion of an f32 value to i32 (Rust float-to-int
casts saturate). -/
def floorToI32 (q : ℚ) : Int :=
  max (-(2 ^ 31)) (min (2 ^ 31 - 1) (Rat.floor q))

/-- Saturating ceiling conversion of an f32 value to i32. -/
def ceilToI32 (q : ℚ) : Int :=
  max (-(2 ^ 31)) (min (2 ^ 31 - 1) (Rat.ceil q))

/-- Downward scan of highest_solid_below_chunk, written with the loop
counter as fuel: fuel n stands for the current y being n - 1, and fuel 0
for having walked past y = 0 (the Some(0.0) result). -/
def hsbScan (B : Int → Int → Biome) (H : Int → Int → Biome → Nat)
    (c : Chunk) (xi zi : Int) : Nat → ℚ
  | 0 => 0
  | n + 1 =>
      if c.get_i32 B H xi (n : Int) zi ≠ Block.Air then (n : ℚ) + 1
      else hsbScan B H c xi zi n

/-- highest_solid_below_chunk of world.rs: none outside the addressable
extent, otherwise the height just above the first non-air cell scanning
down from min(floor(max_y), CHUNK_HEIGHT - 1), or 0 for an all-air
column. -/
def highest_solid_below_chunk (B : Int → Int → Biome)
    (H : Int → Int → Biome → Nat) (c : Chunk) (x z max_y : ℚ) : Option ℚ :=
  let xi := floorToI32 x
  let zi := floorToI32 z
  if xi < 0 ∨ zi < 0 ∨ (CHUNK_WIDTH : Int) ≤ xi ∨ (CHUNK_DEPTH : Int) ≤ zi then
    none
  else
    let y0 := min (floorToI32 max_y) ((CHUNK_HEIGHT : Int) - 1)
    some (hsbScan B H c xi zi (y0 + 1).toNat)

/-- World::highest_solid_below. -/
def World.highest_solid_below (B : Int → Int → Biome)
    (H : Int → Int → Biome → Nat) (w : World) (x z max_y : ℚ) : Option ℚ :=
  highest_solid_below_chunk B H w.chunk x z max_y

/-- World::spawn_mob_at: declined at the population cap or when no ground
height resolves; otherwise a fresh mob 2 above the resolved ground. -/
def World.spawn_mob_at (B : Int → Int → Biome) (H : Int → Int → Biome → Nat)
    (w : World) (x z : ℚ) : World :=
  if MAX_MOBS ≤ w.mobs.length then w
  else
    match highest_solid_below_chunk B H w.chunk x z ((CHUNK_HEIGHT : ℚ) - 1) with
    | some ground_y =>
        { w with mobs := w.mobs ++
            [{ position := (x, ground_y + 2, z), health := 100, radius := 2 / 5,
               height := 9 / 5, velocity_y := 0, grounded := false,
               jump_cooldown := 0, attack_cooldown := 0 }] }
    | none => w

/-- World::break_block: bounds-guarded clear of a local cell. -/
def World.break_block (w : World) (x y z : Nat) : World :=
  if x < CHUNK_WIDTH ∧ y < CHUNK_HEIGHT ∧ z < CHUNK_DEPTH then
    { w with chunk := w.chunk.set x y z Block.Air }
  else w

/-- World::set_block: bounds-guarded write of a local cell. -/
def World.set_block (w : World) (x y z : Nat) (block : Block) : World :=
  if x < CHUNK_WIDTH ∧ y < CHUNK_HEIGHT ∧ z < CHUNK_DEPTH then
    { w with chunk := w.chunk.set x y z block }
  else w

/-- World::block_at. -/
def World.block_at (B : Int → Int → Biome) (H : Int → Int → Biome → Nat)
    (w : World) (x y z : Int) : Block :=
  w.chunk.get_i32 B H x y z

/-- Inclusive range of integers, in ascending order. -/
def intRange (lo hi : Int) : List Int :=
  (List.range (hi + 1 - lo).toNat).map fun (i : Nat) => lo + (i : Int)

/-- The cell triples of the explode_at triple loop, x outermost and z
innermost. -/
def explodeCells (minx maxx miny maxy minz maxz : Int) :
    List (Int × Int × Int) :=
  (intRange minx maxx).flatMap fun x =>
    (intRange miny maxy).flatMap fun y =>
      (intRange minz maxz).map fun z => (x, y, z)

/-- Bounding box of explode_at around center and radius (f32 floor and
ceil casts to i32). -/
def explodeBox (center : ℚ × ℚ × ℚ) (radius : ℚ) : List (Int × Int × Int) :=
  explodeCells (floorToI32 (center.1 - radius)) (ceilToI32 (center.1 + radius))
    (floorToI32 (center.2.1 - radius)) (ceilToI32 (center.2.1 + radius))
    (floorToI32 (center.2.2 - radius)) (ceilToI32 (center.2.2 + radius))

/-- Squared distance from the center of cell (x, y, z) (at +0.5 on each
axis) to a point. -/
def cellDist2 (center : ℚ × ℚ × ℚ) (cell : Int × Int × Int) : ℚ :=
  let dx := (cell.1 : ℚ) + 1 / 2 - center.1
  let dy := (cell.2.1 : ℚ) + 1 / 2 - center.2.1
  let dz := (cell.2.2 : ℚ) + 1 / 2 - center.2.2
  dx * dx + dy * dy + dz * dz

/-- Loop body of World::explode_at: test the cell through the world-frame
lookup, and on a within-radius non-air result break the block at the cell
coordinates cast to usize (which break_block treats as local indices). -/
def explodeStep (B : Int → Int → Biome) (H : Int → Int → Biome → Nat)
    (center : ℚ × ℚ × ℚ) (r2 : ℚ) (s : World × Bool) (cell : Int × Int × Int) :
    World × Bool :=
  if cellDist2 center cell ≤ r2 ∧
      s.1.chunk.get_i32 B H cell.1 cell.2.1 cell.2.2 ≠ Block.Air then
    (s.1.break_block (castUsize cell.1) (castUsize cell.2.1)
      (castUsize cell.2.2), true)
  else s

/-- World::explode_at: fold of the loop body over the bounding-box cells;
the trailing cosmetic particle burst is not modelled. -/
def World.explode_at (B : Int → Int → Biome) (H : Int → Int → Biome → Nat)
    (w : World) (center : ℚ × ℚ × ℚ) (radius : ℚ) : World × Bool :=
  (explodeBox center radius).foldl
    (explodeStep B H center (radius * radius)) (w, false)

/-- Squared length of an f32 vector (cgmath magnitude2). -/
def magnitude2 (v : ℚ × ℚ × ℚ) : ℚ :=
  v.1 * v.1 + v.2.1 * v.2.1 + v.2.2 * v.2.2

/-- Sample points of the fixed-step ray march: origin + dir * (k * step)
for k = 0, 1, ... while k * step ≤ max_distance. -/
def raySamples (origin dir : ℚ × ℚ × ℚ) (max_distance step : ℚ) :
    List (ℚ × ℚ × ℚ) :=
  (List.range (if max_distance < 0 then 0 else (Rat.floor (max_distance / step)).toNat + 1)).map
    fun (k : Nat) =>
      (origin.1 + dir.1 * ((k : ℚ) * step),
       origin.2.1 + dir.2.1 * ((k : ℚ) * step),
       origin.2.2 + dir.2.2 * ((k : ℚ) * step))

/-- Containing cell of a sample point (f32 floor casts to i32). -/
def cellOfSample (p : ℚ × ℚ × ℚ) : Int × Int × Int :=
  (floorToI32 p.1, floorToI32 p.2.1, floorToI32 p.2.2)

/-- Whether a sample's cell is inside the addressable volume. -/
def sampleInBounds (p : ℚ × ℚ × ℚ) : Prop :=
  0 ≤ (cellOfSample p).1 ∧ 0 ≤ (cellOfSample p).2.1 ∧ 0 ≤ (cellOfSample p).2.2 ∧
  (cellOfSample p).1 < (CHUNK_WIDTH : Int) ∧
  (cellOfSample p).2.1 < (CHUNK_HEIGHT : Int) ∧
  (cellOfSample p).2.2 < (CHUNK_DEPTH : Int)

instance (p : ℚ × ℚ × ℚ) : Decidable (sampleInBounds p) := by
  unfold sampleInBounds; infer_instance

/-- Loop of World::place_block_from_ray over the remaining sample points,
carrying the last in-bounds air cell seen. -/
def placeLoop (B : Int → Int → Biome) (H : Int → Int → Biome → Nat)
    (w : World) (block : Block) :
    List (ℚ × ℚ × ℚ) → Option (Nat × Nat × Nat) → World × Bool
  | [], _ => (w, false)
  | p :: rest, last_air =>
      let cell := cellOfSample p
      if ¬ sampleInBounds p then placeLoop B H w block rest last_air
      else if w.chunk.get_i32 B H cell.1 cell.2.1 cell.2.2 = Block.Air then
        placeLoop B H w block rest
          (some (cell.1.toNat, cell.2.1.toNat, cell.2.2.toNat))
      else
        match last_air with
        | some a => (w.set_block a.1 a.2.1 a.2.2 block, true)
        | none => (w, false)

/-- World::place_block_from_ray: declined for the air block or a
zero-length direction, otherwise the 0.05-step ray march; normalize is
cgmath's f32 vector normalization, a parameter of the model. -/
def World.place_block_from_ray (normalize : ℚ × ℚ × ℚ → ℚ × ℚ × ℚ)
    (B : Int → Int → Biome) (H : Int → Int → Biome → Nat) (w : World)
    (origin direction : ℚ × ℚ × ℚ) (max_distance : ℚ) (block : Block) :
    World × Bool :=
  if block = Block.Air then (w, false)
  else if magnitude2 direction ≤ 0 then (w, false)
  else placeLoop B H w block
    (raySamples origin (normalize direction) max_distance (1 / 20)) none

/-- A sample biome field, used to instantiate the noise parameters in
witnesses and counterexamples. -/
def biomeSample : Int → Int → Biome := fun _ _ => Biome.Plains

/-- A sample raw-height field, used to instantiate the noise parameters in
witnesses and counterexamples. -/
def heightSample : Int → Int → Biome → Nat := fun _ _ _ => 30

/-- The identity on vectors, a sample instantiation of the normalize
parameter (exact for axis-aligned unit vectors). -/
def idNormalize : ℚ × ℚ × ℚ → ℚ × ℚ × ℚ := fun v => v

/-- A world whose chunk is entirely air. -/
def worldAllAir : World :=
  { chunk := Chunk.new, bullets := [], mobs := [], particles := [],
    explosives := [], spawn_timer := 0 }

/-- A world with a single stone cell at local index (300, 5, 300), i.e. at
world coordinate (44, 5, 44) for the origin (-256, -256) of Chunk.new. -/
def worldOneStone : World :=
  { chunk := Chunk.new.set 300 5 300 Block.Stone, bullets := [], mobs := [],
    particles := [], explosives := [], spawn_timer := 0 }

/-- A world with a single stone cell at local index (260, 0, 260), i.e. at
world coordinate (4, 0, 4) for the origin (-256, -256) of Chunk.new. -/
def worldRayStone : World :=
  { chunk := Chunk.new.set 260 0 260 Block.Stone, bullets := [], mobs := [],
    particles := [], explosives := [], spawn_timer := 0 }

/-- Strict lexicographic order on cell triples, the iteration order of the
explode_at triple loop. -/
def cellLt (a b : Int × Int × Int) : Prop :=
  a.1 < b.1 ∨ (a.1 = b.1 ∧ (a.2.1 < b.2.1 ∨ (a.2.1 = b.2.1 ∧ a.2.2 < b.2.2)))

/-- Whether explode_at breaks the stored cell of linear index i when
processing world-frame cell (x, y, z) of its bounding box against the
initial world w0: the cell center is within radius, the world-frame lookup
is non-air, and the world coordinates — reinterpreted as local indices, as
the source does — fall inside the array extents and linearize to i. -/
def explodeHits (B : Int → Int → Biome) (H : Int → Int → Biome → Nat)
    (w0 : World) (center : ℚ × ℚ × ℚ) (r2 : ℚ) (cell : Int × Int × Int)
    (i : Nat) : Prop :=
  cellDist2 center cell ≤ r2 ∧
  w0.chunk.get_i32 B H cell.1 cell.2.1 cell.2.2 ≠ Block.Air ∧
  0 ≤ cell.1 ∧ cell.1 < (CHUNK_WIDTH : Int) ∧
  0 ≤ cell.2.1 ∧ cell.2.1 < (CHUNK_HEIGHT : Int) ∧
  0 ≤ cell.2.2 ∧ cell.2.2 < (CHUNK_DEPTH : Int) ∧
  i = Chunk.index cell.1.toNat cell.2.1.toNat cell.2.2.toNat

instance (B : Int → Int → Biome) (H : Int → Int → Biome → Nat) (w0 : World)
    (center : ℚ × ℚ × ℚ) (r2 : ℚ) (cell : Int × Int × Int) (i : Nat) :
    Decidable (explodeHits B H w0 center r2 cell i) := by
  unfold explodeHits; infer_instance

/-- Specification of the corrected behavior of World::explode_at.  The
report flag is true iff some bounding-box cell is within radius and reads
non-air through the world-frame lookup (possibly an out-of-bounds cell
answered by the procedural fallback).  Each stored cell that changes is
the one whose LOCAL indices equal the world coordinates of a tested
non-air cell — i.e. clearing is displaced from the tested cell by minus
the chunk origin on the horizontal axes — and it is set to air; every
other stored cell keeps its value, and the mob list is untouched. -/
def ExplodeSpec (B : Int → Int → Biome) (H : Int → Int → Biome → Nat)
    (w : World) (center : ℚ × ℚ × ℚ) (radius : ℚ) : Prop :=
  ((w.explode_at B H center radius).2 = true ↔
    ∃ cell ∈ explodeBox center radius,
      cellDist2 center cell ≤ radius * radius ∧
      w.chunk.get_i32 B H cell.1 cell.2.1 cell.2.2 ≠ Block.Air) ∧
  (∀ i : Nat,
    (w.explode_at B H center radius).1.chunk.blocks i =
      if ∃ cell ∈ explodeBox center radius,
          explodeHits B H w center (radius * radius) cell i
      then Block.Air else w.chunk.blocks i) ∧
  (w.explode_at B H center radius).1.mobs = w.mobs

/-- Specification of highest_solid_below_chunk: no result exactly outside
the addressable extent, and inside it the height just above the topmost
non-air cell at or below the starting height, or ground level 0 for a
column that is air throughout the scanned range. -/
def HsbSpec (B : Int → Int → Biome) (H : Int → Int → Biome → Nat) (c : Chunk)
    (x z max_y : ℚ) : Prop :=
  (highest_solid_below_chunk B H c x z max_y = none ↔
    (floorToI32 x < 0 ∨ floorToI32 z < 0 ∨ (CHUNK_WIDTH : Int) ≤ floorToI32 x ∨
      (CHUNK_DEPTH : Int) ≤ floorToI32 z)) ∧
  (∀ v : ℚ, highest_solid_below_chunk B H c x z max_y = some v →
    (∃ y : Int, 0 ≤ y ∧ y ≤ min (floorToI32 max_y) ((CHUNK_HEIGHT : Int) - 1) ∧
      c.get_i32 B H (floorToI32 x) y (floorToI32 z) ≠ Block.Air ∧
      v = (y : ℚ) + 1 ∧
      (∀ y2 : Int, y < y2 → y2 ≤ min (floorToI32 max_y) ((CHUNK_HEIGHT : Int) - 1) →
        c.get_i32 B H (floorToI32 x) y2 (floorToI32 z) = Block.Air)) ∨
    (v = 0 ∧
      ∀ y2 : Int, 0 ≤ y2 → y2 ≤ min (floorToI32 max_y) ((CHUNK_HEIGHT : Int) - 1) →
        c.get_i32 B H (floorToI32 x) y2 (floorToI32 z) = Block.Air))

/-- The mob World::spawn_mob_at pushes for a spawn at (x, z) with resolved
ground height g. -/
def spawnedMob (x z g : ℚ) : Mob :=
  { position := (x, g + 2, z), health := 100, radius := 2 / 5, height := 9 / 5,
    velocity_y := 0, grounded := false, jump_cooldown := 0,
    attack_cooldown := 0 }

/-- Specification of the corrected behavior of World::spawn_mob_at: the
call declines exactly at the population cap or outside the addressable
extent; any resolved ground height — including ground level 0 for an
all-air column — produces a mob two units above it. -/
def SpawnSpec (B : Int → Int → Biome) (H : Int → Int → Biome → Nat)
    (w : World) (x z : ℚ) : Prop :=
  (MAX_MOBS ≤ w.mobs.length → w.spawn_mob_at B H x z = w) ∧
  (w.highest_solid_below B H x z ((CHUNK_HEIGHT : ℚ) - 1) = none →
    w.spawn_mob_at B H x z = w) ∧
  (∀ g : ℚ, w.mobs.length < MAX_MOBS →
    w.highest_solid_below B H x z ((CHUNK_HEIGHT : ℚ) - 1) = some g →
    (w.spawn_mob_at B H x z).mobs = w.mobs ++ [spawnedMob x z g] ∧
    (w.spawn_mob_at B H x z).chunk = w.chunk)

/-- Whether a ray sample lands in an in-bounds cell whose world-frame
lookup is non-air. -/
def sampleSolid (B : Int → Int → Biome) (H : Int → Int → Biome → Nat)
    (w : World) (p : ℚ × ℚ × ℚ) : Prop :=
  sampleInBounds p ∧
  w.chunk.get_i32 B H (cellOfSample p).1 (cellOfSample p).2.1
    (cellOfSample p).2.2 ≠ Block.Air

/-- Whether a ray sample lands in an in-bounds cell whose world-frame
lookup is air. -/
def sampleAir (B : Int → Int → Biome) (H : Int → Int → Biome → Nat)
    (w : World) (p : ℚ × ℚ × ℚ) : Prop :=
  sampleInBounds p ∧
  w.chunk.get_i32 B H (cellOfSample p).1 (cellOfSample p).2.1
    (cellOfSample p).2.2 = Block.Air

instance (B : Int → Int → Biome) (H : Int → Int → Biome → Nat) (w : World)
    (p : ℚ × ℚ × ℚ) : Decidable (sampleSolid B H w p) := by
  unfold sampleSolid; infer_instance

instance (B : Int → Int → Biome) (H : Int → Int → Biome → Nat) (w : World)
    (p : ℚ × ℚ × ℚ) : Decidable (sampleAir B H w p) := by
  unfold sampleAir; infer_instance

/-- The local indices World::place_block_from_ray records for an in-bounds
air sample. -/
def airTarget (p : ℚ × ℚ × ℚ) : Nat × Nat × Nat :=
  ((cellOfSample p).1.toNat, (cellOfSample p).2.1.toNat,
    (cellOfSample p).2.2.toNat)

/-- Specification of the corrected behavior of
World::place_block_from_ray: failure without change for the air block, a
zero direction, a ray whose in-bounds samples are all air, or a first
in-bounds solid sample with no earlier in-bounds air sample; on success
the write goes through the bounds-guarded set operation with the world
coordinates of the last in-bounds air sample used directly as LOCAL array
indices — the march tests cells through the origin-translated lookup but
writes untranslated, so the stored cell is displaced from the visited cell
by minus the chunk origin on the horizontal axes. -/
def PlaceSpec (normalize : ℚ × ℚ × ℚ → ℚ × ℚ × ℚ) (B : Int → Int → Biome)
    (H : Int → Int → Biome → Nat) (w : World) (origin direction : ℚ × ℚ × ℚ)
    (max_distance : ℚ) (block : Block) : Prop :=
  (block = Block.Air →
    w.place_block_from_ray normalize B H origin direction max_distance block
      = (w, false)) ∧
  (direction = (0, 0, 0) →
    w.place_block_from_ray normalize B H origin direction max_distance block
      = (w, false)) ∧
  (block ≠ Block.Air → ¬ magnitude2 direction ≤ 0 →
    ((∀ p ∈ raySamples origin (normalize direction) max_distance (1 / 20),
        ¬ sampleSolid B H w p) →
      w.place_block_from_ray normalize B H origin direction max_distance block
        = (w, false)) ∧
    (∀ pre p post,
      raySamples origin (normalize direction) max_distance (1 / 20)
        = pre ++ p :: post →
      (∀ q ∈ pre, ¬ sampleSolid B H w q) → sampleSolid B H w p →
      ((∀ q ∈ pre, ¬ sampleAir B H w q) →
        w.place_block_from_ray normalize B H origin direction max_distance
          block = (w, false)) ∧
      (∀ pre2 a post2, pre = pre2 ++ a :: post2 → sampleAir B H w a →
        (∀ q ∈ post2, ¬ sampleAir B H w q) →
        w.place_block_from_ray normalize B H origin direction max_distance
          block
          = (w.set_block (airTarget a).1 (airTarget a).2.1 (airTarget a).2.2
              block, true))))

/-! ### Structural lemmas about marking and setting -/

theorem markStep_blocks (rx ry rz : Nat) (c : Chunk) (d : Int × Int × Int) :
    (Chunk.markStep rx ry rz c d).blocks = c.blocks := by
  unfold Chunk.markStep; dsimp only; split <;> rfl

theorem markStep_origin_x (rx ry rz : Nat) (c : Chunk) (d : Int × Int × Int) :
    (Chunk.markStep rx ry rz c d).origin_x = c.origin_x := by
  unfold Chunk.markStep; dsimp only; split <;> rfl

theorem markStep_origin_z (rx ry rz : Nat) (c : Chunk) (d : Int × Int × Int) :
    (Chunk.markStep rx ry rz c d).origin_z = c.origin_z := by
  unfold Chunk.markStep; dsimp only; split <;> rfl

theorem foldl_markStep_blocks (rx ry rz : Nat) (L : List (Int × Int × Int)) :
    ∀ c : Chunk, (L.foldl (Chunk.markStep rx ry rz) c).blocks = c.blocks := by
  induction L with
  | nil => intro c; rfl
  | cons d L ih => intro c; rw [List.foldl_cons, ih, markStep_blocks]

theorem foldl_markStep_origin_x (rx ry rz : Nat) (L : List (Int × Int × Int)) :
    ∀ c : Chunk, (L.foldl (Chunk.markStep rx ry rz) c).origin_x = c.origin_x := by
  induction L with
  | nil => intro c; rfl
  | cons d L ih => intro c; rw [List.foldl_cons, ih, markStep_origin_x]

theorem foldl_markStep_origin_z (rx ry rz : Nat) (L : List (Int × Int × Int)) :
    ∀ c : Chunk, (L.foldl (Chunk.markStep rx ry rz) c).origin_z = c.origin_z := by
  induction L with
  | nil => intro c; rfl
  | cons d L ih => intro c; rw [List.foldl_cons, ih, markStep_origin_z]

theorem mark_blocks (c : Chunk) (x y z : Nat) :
    (c.mark_region_dirty_by_block x y z).blocks = c.blocks :=
  foldl_markStep_blocks _ _ _ _ _

theorem mark_origin_x (c : Chunk) (x y z : Nat) :
    (c.mark_region_dirty_by_block x y z).origin_x = c.origin_x :=
  foldl_markStep_origin_x _ _ _ _ _

theorem mark_origin_z (c : Chunk) (x y z : Nat) :
    (c.mark_region_dirty_by_block x y z).origin_z = c.origin_z :=
  foldl_markStep_origin_z _ _ _ _ _

theorem set_origin_x (c : Chunk) (x y z : Nat) (b : Block) :
    (c.set x y z b).origin_x = c.origin_x := by
  unfold Chunk.set; dsimp only
  split
  · split
    · rw [mark_origin_x]
    · rfl
  · rfl

theorem set_origin_z (c : Chunk) (x y z : Nat) (b : Block) :
    (c.set x y z b).origin_z = c.origin_z := by
  unfold Chunk.set; dsimp only
  split
  · split
    · rw [mark_origin_z]
    · rfl
  · rfl

theorem set_blocks (c : Chunk) (x y z : Nat) (b : Block)
    (h : x < CHUNK_WIDTH ∧ y < CHUNK_HEIGHT ∧ z < CHUNK_DEPTH) (i : Nat) :
    (c.set x y z b).blocks i =
      if i = Chunk.index x y z then b else c.blocks i := by
  unfold Chunk.set; dsimp only
  rw [if_pos h]
  by_cases hv : c.blocks (Chunk.index x y z) ≠ b
  · rw [if_pos hv, mark_blocks]
  · rw [if_neg hv]
    push_neg at hv
    by_cases hi : i = Chunk.index x y z
    · rw [if_pos hi, hi, hv]
    · rw [if_neg hi]

/-- C7: set leaves the chunk — block array and dirty bitmap alike —
entirely unchanged whenever it does not change stored content: an
out-of-bounds set is a complete no-op, and an in-bounds set of the value
already stored at the cell returns the chunk as it was. -/
theorem set_noop (c : Chunk) (x y z : Nat) (b : Block) :
    (¬ (x < CHUNK_WIDTH ∧ y < CHUNK_HEIGHT ∧ z < CHUNK_DEPTH) →
      c.set x y z b = c) ∧
    (x < CHUNK_WIDTH → y < CHUNK_HEIGHT → z < CHUNK_DEPTH →
      c.blocks (Chunk.index x y z) = b → c.set x y z b = c) := by
  constructor
  · intro h
    unfold Chunk.set
    rw [if_neg h]
  · intro hx hy hz hv
    unfold Chunk.set; dsimp only
    rw [if_pos ⟨hx, hy, hz⟩, if_neg (by simpa using hv)]

/-- Witness for set_noop: a write at x = 600 (outside the 512-wide extent)
and an in-bounds rewrite of the air already stored both return the chunk
unchanged. -/
theorem set_noop_witness :
    Chunk.new.set 600 2 3 Block.Stone = Chunk.new ∧
    Chunk.new.set 1 2 3 Block.Air = Chunk.new :=
  ⟨(set_noop Chunk.new 600 2 3 Block.Stone).1 (by decide),
   (set_noop Chunk.new 1 2 3 Block.Air).2 (by decide) (by decide) (by decide)
     rfl⟩

/-- C8: for every in-bounds local coordinate and block, set followed by the
world-frame lookup at origin plus the local index returns the written
block. -/
theorem set_get_roundtrip (B : Int → Int → Biome)
    (H : Int → Int → Biome → Nat) (c : Chunk) (x y z : Nat) (b : Block)
    (hx : x < CHUNK_WIDTH) (hy : y < CHUNK_HEIGHT) (hz : z < CHUNK_DEPTH) :
    (c.set x y z b).get_i32 B H (c.origin_x + (x : Int)) (y : Int)
      (c.origin_z + (z : Int)) = b := by
  have hx2 : x < 512 := hx
  have hy2 : y < 96 := hy
  have hz2 : z < 512 := hz
  unfold Chunk.get_i32
  rw [if_neg (by simp only [CHUNK_HEIGHT]; push_cast; omega)]
  dsimp only
  rw [set_origin_x, set_origin_z]
  have ex : c.origin_x + (x : Int) - c.origin_x = (x : Int) := by ring
  have ez : c.origin_z + (z : Int) - c.origin_z = (z : Int) := by ring
  rw [ex, ez,
    if_pos (by simp only [CHUNK_WIDTH, CHUNK_DEPTH]; push_cast; omega)]
  rw [set_blocks c x y z b ⟨hx, hy, hz⟩]
  simp [Int.toNat_natCast]

/-- Witness for set_get_roundtrip: writing stone at local (1, 2, 3) of the
fresh chunk and reading back at world (-255, 2, -253) returns stone. -/
theorem set_get_roundtrip_witness :
    (Chunk.new.set 1 2 3 Block.Stone).get_i32 biomeSample heightSample
      (Chunk.new.origin_x + (1 : Int)) (2 : Int)
      (Chunk.new.origin_z + (3 : Int)) = Block.Stone :=
  set_get_roundtrip biomeSample heightSample Chunk.new 1 2 3 Block.Stone
    (by decide) (by decide) (by decide)

theorem markStep_dirty_mono (rx ry rz : Nat) (c : Chunk) (d : Int × Int × Int)
    (i : Nat) (h : c.dirty_regions i = true) :
    (Chunk.markStep rx ry rz c d).dirty_regions i = true := by
  unfold Chunk.markStep; dsimp only
  split
  · exact h
  · dsimp only
    split
    · rfl
    · exact h

theorem foldl_markStep_dirty_mono (rx ry rz : Nat)
    (L : List (Int × Int × Int)) :
    ∀ (c : Chunk) (i : Nat), c.dirty_regions i = true →
      (L.foldl (Chunk.markStep rx ry rz) c).dirty_regions i = true := by
  induction L with
  | nil => intro c i h; exact h
  | cons d L ih =>
      intro c i h
      rw [List.foldl_cons]
      exact ih _ i (markStep_dirty_mono rx ry rz c d i h)

theorem mem_neighborOffsets (a b c : Int) (h1 : a.natAbs ≤ 1)
    (h2 : b.natAbs ≤ 1) (h3 : c.natAbs ≤ 1) : (a, b, c) ∈ neighborOffsets := by
  simp only [neighborOffsets, List.mem_flatMap, List.mem_map]
  refine ⟨a, ?_, b, ?_, c, ?_, rfl⟩ <;> simp only [List.mem_cons,
    List.mem_singleton] <;> omega

theorem foldl_markStep_sets (rx ry rz : Nat) (L : List (Int × Int × Int))
    (dx dy dz : Int) (hd : (dx, dy, dz) ∈ L)
    (h0x : 0 ≤ (rx : Int) + dx) (h0y : 0 ≤ (ry : Int) + dy)
    (h0z : 0 ≤ (rz : Int) + dz)
    (hbx : (rx : Int) + dx < regions_x) (hby : (ry : Int) + dy < regions_y)
    (hbz : (rz : Int) + dz < regions_z) :
    ∀ c : Chunk,
      (L.foldl (Chunk.markStep rx ry rz) c).dirty_regions
        (Chunk.region_index ((rx : Int) + dx).toNat ((ry : Int) + dy).toNat
          ((rz : Int) + dz).toNat) = true := by
  induction L with
  | nil => cases hd
  | cons e L ih =>
      intro c
      rw [List.foldl_cons]
      rcases List.mem_cons.mp hd with he | hmem
      · rw [← he]
        apply foldl_markStep_dirty_mono
        unfold Chunk.markStep; dsimp only
        rw [if_neg (by omega)]
        dsimp only
        rw [if_pos rfl]
      · exact ih hmem _

/-- C6: every in-bounds set that changes the stored value marks dirty the
region containing the cell and each of its up-to-26 neighbor regions that
exist within the region grid; the statement is symmetric in the sense that
any region within distance one of the written cell's region — on whichever
side of a region boundary the cell lies — ends up marked. -/
theorem set_marks_neighbor_regions (c : Chunk) (x y z : Nat) (b : Block)
    (hx : x < CHUNK_WIDTH) (hy : y < CHUNK_HEIGHT) (hz : z < CHUNK_DEPTH)
    (hchange : c.blocks (Chunk.index x y z) ≠ b) (rx ry rz : Nat)
    (hrx : rx < regions_x) (hry : ry < regions_y) (hrz : rz < regions_z)
    (hnx : ((rx : Int) - (x / CHUNK_REGION_SIZE : Nat)).natAbs ≤ 1)
    (hny : ((ry : Int) - (y / CHUNK_REGION_SIZE : Nat)).natAbs ≤ 1)
    (hnz : ((rz : Int) - (z / CHUNK_REGION_SIZE : Nat)).natAbs ≤ 1) :
    (c.set x y z b).dirty_regions (Chunk.region_index rx ry rz) = true := by
  unfold Chunk.set; dsimp only
  rw [if_pos ⟨hx, hy, hz⟩, if_pos hchange]
  unfold Chunk.mark_region_dirty_by_block
  have hreg : rx < 32 ∧ ry < 6 ∧ rz < 32 := ⟨hrx, hry, hrz⟩
  have hd := foldl_markStep_sets (x / CHUNK_REGION_SIZE)
    (y / CHUNK_REGION_SIZE) (z / CHUNK_REGION_SIZE) neighborOffsets
    ((rx : Int) - (x / CHUNK_REGION_SIZE : Nat))
    ((ry : Int) - (y / CHUNK_REGION_SIZE : Nat))
    ((rz : Int) - (z / CHUNK_REGION_SIZE : Nat))
    (mem_neighborOffsets _ _ _ hnx hny hnz) (by omega) (by omega) (by omega)
    (by omega) (by omega) (by omega)
  have ex : ((x / CHUNK_REGION_SIZE : Nat) : Int) +
      ((rx : Int) - (x / CHUNK_REGION_SIZE : Nat)) = (rx : Int) := by ring
  have ey : ((y / CHUNK_REGION_SIZE : Nat) : Int) +
      ((ry : Int) - (y / CHUNK_REGION_SIZE : Nat)) = (ry : Int) := by ring
  have ez : ((z / CHUNK_REGION_SIZE : Nat) : Int) +
      ((rz : Int) - (z / CHUNK_REGION_SIZE : Nat)) = (rz : Int) := by ring
  simp only [ex, ey, ez, Int.toNat_natCast] at hd
  exact hd _

/-- Witness for set_marks_neighbor_regions: writing stone at the region
boundary cell (16, 16, 16) of the fresh chunk marks region (0, 0, 0), a
neighbor across the boundary of the cell's own region (1, 1, 1). -/
theorem set_marks_neighbor_regions_witness :
    (Chunk.new.set 16 16 16 Block.Stone).dirty_regions
      (Chunk.region_index 0 0 0) = true :=
  set_marks_neighbor_regions Chunk.new 16 16 16 Block.Stone (by decide)
    (by decide) (by decide) (by decide) 0 0 0 (by decide) (by decide)
    (by decide) (by decide) (by decide) (by decide)

/-- C1: for every coordinate outside the chunk volume the world-frame
lookup is total and pure: it returns either the empty block or exactly the
recomputed procedural-fallback block for that world coordinate, and — the
embedding being a pure function of the unmodified chunk — a repeated call
returns the same value. -/
theorem get_i32_total_outside (B : Int → Int → Biome)
    (H : Int → Int → Biome → Nat) (c : Chunk) (x y z : Int)
    (h : y < 0 ∨ (CHUNK_HEIGHT : Int) ≤ y ∨ x - c.origin_x < 0 ∨
      (CHUNK_WIDTH : Int) ≤ x - c.origin_x ∨ z - c.origin_z < 0 ∨
      (CHUNK_DEPTH : Int) ≤ z - c.origin_z) :
    (c.get_i32 B H x y z = Block.Air ∨
      c.get_i32 B H x y z = procedural_block_at B H x y.toNat z) ∧
    c.get_i32 B H x y z = c.get_i32 B H x y z := by
  refine ⟨?_, rfl⟩
  unfold Chunk.get_i32
  by_cases hy : y < 0 ∨ (CHUNK_HEIGHT : Int) ≤ y
  · rw [if_pos hy]; exact Or.inl rfl
  · rw [if_neg hy]; dsimp only
    rw [if_neg (by omega)]
    exact Or.inr rfl

/-- Witness for get_i32_total_outside at the out-of-volume coordinate
(1000, 5, 0) of the fresh chunk (origin -256, so the local x is 1256). -/
theorem get_i32_total_outside_witness :
    ((1000 : Int) - Chunk.new.origin_x < 0 ∨
      (CHUNK_WIDTH : Int) ≤ (1000 : Int) - Chunk.new.origin_x) ∧
    ((Chunk.new.get_i32 biomeSample heightSample 1000 5 0 = Block.Air ∨
      Chunk.new.get_i32 biomeSample heightSample 1000 5 0 =
        procedural_block_at biomeSample heightSample 1000 (5 : Int).toNat 0) ∧
      Chunk.new.get_i32 biomeSample heightSample 1000 5 0 =
        Chunk.new.get_i32 biomeSample heightSample 1000 5 0) :=
  ⟨by decide,
   get_i32_total_outside biomeSample heightSample Chunk.new 1000 5 0
     (by decide)⟩

/-- C10: the vertical check dominates the lookup: any y outside the
vertical extent yields air for every instantiation of the noise fields
(the fallback is not consulted); for y inside the vertical extent the
fallback answers exactly the horizontally out-of-range coordinates, and
in-range coordinates read the stored array. -/
theorem get_i32_vertical_air_fallback (B : Int → Int → Biome)
    (H : Int → Int → Biome → Nat) (c : Chunk) (x y z : Int) :
    ((y < 0 ∨ (CHUNK_HEIGHT : Int) ≤ y) → c.get_i32 B H x y z = Block.Air) ∧
    (0 ≤ y → y < (CHUNK_HEIGHT : Int) →
      (x - c.origin_x < 0 ∨ (CHUNK_WIDTH : Int) ≤ x - c.origin_x ∨
        z - c.origin_z < 0 ∨ (CHUNK_DEPTH : Int) ≤ z - c.origin_z) →
      c.get_i32 B H x y z = procedural_block_at B H x y.toNat z) ∧
    (0 ≤ y → y < (CHUNK_HEIGHT : Int) → 0 ≤ x - c.origin_x →
      x - c.origin_x < (CHUNK_WIDTH : Int) → 0 ≤ z - c.origin_z →
      z - c.origin_z < (CHUNK_DEPTH : Int) →
      c.get_i32 B H x y z =
        c.blocks (Chunk.index (x - c.origin_x).toNat y.toNat
          (z - c.origin_z).toNat)) := by
  refine ⟨?_, ?_, ?_⟩
  · intro hy
    unfold Chunk.get_i32
    rw [if_pos hy]
  · intro hy0 hy1 hout
    unfold Chunk.get_i32
    rw [if_neg (by omega)]
    dsimp only
    rw [if_neg (by omega)]
  · intro hy0 hy1 hx0 hx1 hz0 hz1
    unfold Chunk.get_i32
    rw [if_neg (by omega)]
    dsimp only
    rw [if_pos ⟨hx0, hz0, hx1, hz1⟩]

/-- Witness for get_i32_vertical_air_fallback: at y = 200 the lookup on
the fresh chunk is air even at a horizontally out-of-range x. -/
theorem get_i32_vertical_air_fallback_witness :
    ((200 : Int) < 0 ∨ (CHUNK_HEIGHT : Int) ≤ (200 : Int)) ∧
    Chunk.new.get_i32 biomeSample heightSample 1000 200 0 = Block.Air :=
  ⟨by decide,
   (get_i32_vertical_air_fallback biomeSample heightSample Chunk.new 1000 200
     0).1 (by decide)⟩

/-! ### take_dirty_regions (claim C5) -/

theorem region_index_eq32 (rx ry rz : Nat) :
    Chunk.region_index rx ry rz = rx + rz * 32 + ry * 32 * 32 := rfl

theorem regionTriples_pairwise_ne :
    regionTriples.Pairwise (fun a b =>
      Chunk.region_index a.1 a.2.1 a.2.2 ≠ Chunk.region_index b.1 b.2.1 b.2.2) := by
  unfold regionTriples
  rw [List.pairwise_flatMap]
  constructor
  · intro ry hry
    rw [List.pairwise_flatMap]
    constructor
    · intro rz hrz
      rw [List.pairwise_map]
      refine (List.pairwise_lt_range _).imp ?_
      intro a b hab
      simp only [region_index_eq32]
      omega
    · refine (List.pairwise_lt_range _).imp_of_mem ?_
      intro a b ha hb hab x hx y hy
      simp only [List.mem_map, List.mem_range] at hx hy
      obtain ⟨rx1, hrx1, hx1⟩ := hx
      obtain ⟨rx2, hrx2, hy1⟩ := hy
      subst hx1; subst hy1
      simp only [show regions_x = 32 from rfl] at hrx1 hrx2
      simp only [region_index_eq32]
      omega
  · refine (List.pairwise_lt_range _).imp_of_mem ?_
    intro a b ha hb hab x hx y hy
    simp only [List.mem_flatMap, List.mem_map, List.mem_range] at hx hy
    obtain ⟨rz1, hrz1, rx1, hrx1, hx1⟩ := hx
    obtain ⟨rz2, hrz2, rx2, hrx2, hy1⟩ := hy
    subst hx1; subst hy1
    simp only [show regions_x = 32 from rfl, show regions_z = 32 from rfl]
      at hrx1 hrx2 hrz1 hrz2
    simp only [region_index_eq32]
    omega

theorem mem_regionTriples (rx ry rz : Nat) :
    (rx, ry, rz) ∈ regionTriples ↔
      rx < regions_x ∧ ry < regions_y ∧ rz < regions_z := by
  unfold regionTriples
  simp only [List.mem_flatMap, List.mem_map, List.mem_range]
  constructor
  · rintro ⟨ry2, hry2, rz2, hrz2, rx2, hrx2, heq⟩
    obtain ⟨e1, e2, e3⟩ := Prod.mk.injEq .. ▸ heq
    exact ⟨e1 ▸ hrx2, by
      have := (Prod.mk.injEq ..).mp heq
      obtain ⟨-, h23⟩ := this
      have := (Prod.mk.injEq ..).mp h23
      omega, by
      have := (Prod.mk.injEq ..).mp heq
      obtain ⟨-, h23⟩ := this
      have := (Prod.mk.injEq ..).mp h23
      omega⟩
  · rintro ⟨h1, h2, h3⟩
    exact ⟨ry, h2, rz, h3, rx, h1, rfl⟩

theorem takeFold (L : List (Nat × Nat × Nat))
    (hnd : (L.map fun u => Chunk.region_index u.1 u.2.1 u.2.2).Nodup) :
    ∀ (acc : List (Nat × Nat × Nat)) (c : Chunk),
      (L.foldl Chunk.takeStep (acc, c)).1 =
        acc ++ L.filter
          (fun u => c.dirty_regions (Chunk.region_index u.1 u.2.1 u.2.2)) ∧
      ∀ i : Nat, (L.foldl Chunk.takeStep (acc, c)).2.dirty_regions i =
        if ∃ u ∈ L, Chunk.region_index u.1 u.2.1 u.2.2 = i then false
        else c.dirty_regions i := by
  induction L with
  | nil =>
      intro acc c
      refine ⟨by simp, fun i => by simp⟩
  | cons t L ih =>
      intro acc c
      have hnd2 : (L.map fun u => Chunk.region_index u.1 u.2.1 u.2.2).Nodup :=
        (List.nodup_cons.mp hnd).2
      have hnotin :
          Chunk.region_index t.1 t.2.1 t.2.2 ∉
            L.map fun u => Chunk.region_index u.1 u.2.1 u.2.2 :=
        (List.nodup_cons.mp hnd).1
      have hne : ∀ u ∈ L,
          Chunk.region_index u.1 u.2.1 u.2.2 ≠
            Chunk.region_index t.1 t.2.1 t.2.2 := by
        intro u hu heq
        exact hnotin (heq ▸ List.mem_map_of_mem _ hu)
      rw [List.foldl_cons]
      by_cases hdt : c.dirty_regions (Chunk.region_index t.1 t.2.1 t.2.2) = true
      · have hstep : Chunk.takeStep (acc, c) t =
            (acc ++ [t],
             { c with dirty_regions := fun i =>
                 if i = Chunk.region_index t.1 t.2.1 t.2.2 then false
                 else c.dirty_regions i }) := by
          unfold Chunk.takeStep; dsimp only; rw [if_pos hdt]
        rw [hstep]
        obtain ⟨h1, h2⟩ := ih hnd2 (acc ++ [t])
          { c with dirty_regions := fun i =>
              if i = Chunk.region_index t.1 t.2.1 t.2.2 then false
              else c.dirty_regions i }
        constructor
        · rw [h1, List.filter_cons_of_pos (by simpa using hdt),
            List.filter_congr (q := fun u =>
              c.dirty_regions (Chunk.region_index u.1 u.2.1 u.2.2))]
          · simp
          · intro u hu
            dsimp only
            rw [if_neg (hne u hu)]
        · intro i
          rw [h2 i]
          dsimp only
          by_cases hiL : ∃ u ∈ L, Chunk.region_index u.1 u.2.1 u.2.2 = i
          · rw [if_pos hiL, if_pos (by
              obtain ⟨u, hu, he⟩ := hiL
              exact ⟨u, List.mem_cons_of_mem t hu, he⟩)]
          · rw [if_neg hiL]
            by_cases hit : i = Chunk.region_index t.1 t.2.1 t.2.2
            · rw [if_pos hit, if_pos ⟨t, List.mem_cons_self t L, hit.symm⟩]
            · rw [if_neg hit, if_neg (by
                rintro ⟨u, hu, he⟩
                rcases List.mem_cons.mp hu with he2 | hmem
                · exact hit (he2 ▸ he).symm
                · exact hiL ⟨u, hmem, he⟩)]
      · have hstep : Chunk.takeStep (acc, c) t = (acc, c) := by
          unfold Chunk.takeStep; dsimp only; rw [if_neg hdt]
        rw [hstep]
        obtain ⟨h1, h2⟩ := ih hnd2 acc c
        constructor
        · rw [h1, List.filter_cons_of_neg (by simpa using hdt)]
        · intro i
          rw [h2 i]
          by_cases hiL : ∃ u ∈ L, Chunk.region_index u.1 u.2.1 u.2.2 = i
          · rw [if_pos hiL, if_pos (by
              obtain ⟨u, hu, he⟩ := hiL
              exact ⟨u, List.mem_cons_of_mem t hu, he⟩)]
          · rw [if_neg hiL]
            by_cases hit : i = Chunk.region_index t.1 t.2.1 t.2.2
            · rw [if_pos (⟨t, List.mem_cons_self t L, hit.symm⟩ :
                ∃ u ∈ t :: L, Chunk.region_index u.1 u.2.1 u.2.2 = i)]
              rw [hit]
              exact Bool.not_eq_true _ |>.mp hdt
            · rw [if_neg (by
                rintro ⟨u, hu, he⟩
                rcases List.mem_cons.mp hu with he2 | hmem
                · exact hit (he2 ▸ he).symm
                · exact hiL ⟨u, hmem, he⟩)]

theorem regionTriples_map_nodup :
    (regionTriples.map fun u => Chunk.region_index u.1 u.2.1 u.2.2).Nodup :=
  List.pairwise_map.mpr regionTriples_pairwise_ne

theorem take_dirty_eq (c : Chunk) :
    c.take_dirty_regions = regionTriples.foldl Chunk.takeStep ([], c) := rfl

theorem takeSpecMem (c : Chunk) (rx ry rz : Nat) :
    (rx, ry, rz) ∈ c.take_dirty_regions.1 ↔
      (rx < regions_x ∧ ry < regions_y ∧ rz < regions_z ∧
        c.dirty_regions (Chunk.region_index rx ry rz) = true) := by
  obtain ⟨h1, h2⟩ := takeFold regionTriples regionTriples_map_nodup [] c
  rw [take_dirty_eq, h1]
  simp only [List.nil_append, List.mem_filter, mem_regionTriples]
  constructor
  · rintro ⟨⟨ha, hb, hc⟩, hd⟩
    exact ⟨ha, hb, hc, by simpa using hd⟩
  · rintro ⟨ha, hb, hc, hd⟩
    exact ⟨⟨ha, hb, hc⟩, by simpa using hd⟩

theorem takeSpecCleared (c : Chunk) (rx ry rz : Nat)
    (hmem : (rx, ry, rz) ∈ c.take_dirty_regions.1) :
    c.take_dirty_regions.2.dirty_regions (Chunk.region_index rx ry rz)
      = false := by
  obtain ⟨h1, h2⟩ := takeFold regionTriples regionTriples_map_nodup [] c
  obtain ⟨ha, hb, hc, -⟩ := (takeSpecMem c rx ry rz).mp hmem
  have hmem0 : (rx, ry, rz) ∈ regionTriples :=
    (mem_regionTriples rx ry rz).mpr ⟨ha, hb, hc⟩
  rw [take_dirty_eq]
  exact (h2 (Chunk.region_index rx ry rz)).trans
    (if_pos ⟨(rx, ry, rz), hmem0, rfl⟩)

theorem takeSpecSecondDrain (c : Chunk) :
    c.take_dirty_regions.2.take_dirty_regions.1 = [] := by
  obtain ⟨h1, h2⟩ := takeFold regionTriples regionTriples_map_nodup [] c
  obtain ⟨g1, g2⟩ := takeFold regionTriples regionTriples_map_nodup []
    ((regionTriples.foldl Chunk.takeStep ([], c)).2)
  rw [take_dirty_eq, take_dirty_eq, g1, List.nil_append]
  apply List.filter_eq_nil_iff.mpr
  intro u hu
  rw [h2, if_pos ⟨u, hu, rfl⟩]
  simp

/-- C5: take_dirty_regions returns exactly the in-grid regions whose dirty
flag is set at the time of the call, clears the flag of every returned
region, and a second drain with no intervening write returns the empty
list. -/
theorem take_dirty_regions_spec (c : Chunk) :
    (∀ rx ry rz : Nat, (rx, ry, rz) ∈ c.take_dirty_regions.1 ↔
      (rx < regions_x ∧ ry < regions_y ∧ rz < regions_z ∧
        c.dirty_regions (Chunk.region_index rx ry rz) = true)) ∧
    (∀ rx ry rz : Nat, (rx, ry, rz) ∈ c.take_dirty_regions.1 →
      c.take_dirty_regions.2.dirty_regions (Chunk.region_index rx ry rz)
        = false) ∧
    c.take_dirty_regions.2.take_dirty_regions.1 = [] :=
  ⟨takeSpecMem c, takeSpecCleared c, takeSpecSecondDrain c⟩

/-- Witness for take_dirty_regions_spec on the fresh chunk: region
(0, 0, 0) is drained (all flags start dirty), and a second drain is
empty. -/
theorem take_dirty_regions_spec_witness :
    (0, 0, 0) ∈ Chunk.new.take_dirty_regions.1 ∧
    Chunk.new.take_dirty_regions.2.take_dirty_regions.1 = [] :=
  ⟨((take_dirty_regions_spec Chunk.new).1 0 0 0).mpr (by decide),
   (take_dirty_regions_spec Chunk.new).2.2⟩

/-! ### highest_solid_below (claim C2) -/

theorem hsbScan_spec (B : Int → Int → Biome) (H : Int → Int → Biome → Nat)
    (c : Chunk) (xi zi : Int) (n : Nat) :
    (∃ y : Nat, y < n ∧ c.get_i32 B H xi (y : Int) zi ≠ Block.Air ∧
      hsbScan B H c xi zi n = (y : ℚ) + 1 ∧
      ∀ y2 : Nat, y < y2 → y2 < n → c.get_i32 B H xi (y2 : Int) zi = Block.Air)
    ∨ (hsbScan B H c xi zi n = 0 ∧
      ∀ y2 : Nat, y2 < n → c.get_i32 B H xi (y2 : Int) zi = Block.Air) := by
  induction n with
  | zero => exact Or.inr ⟨rfl, fun y2 h => absurd h (Nat.not_lt_zero _)⟩
  | succ n ih =>
      by_cases hs : c.get_i32 B H xi (n : Int) zi ≠ Block.Air
      · refine Or.inl ⟨n, Nat.lt_succ_self n, hs, ?_, ?_⟩
        · show hsbScan B H c xi zi (n + 1) = (n : ℚ) + 1
          unfold hsbScan
          rw [if_pos hs]
        · intro y2 h1 h2
          omega
      · push_neg at hs
        have heq : hsbScan B H c xi zi (n + 1) = hsbScan B H c xi zi n := by
          show (if c.get_i32 B H xi (n : Int) zi ≠ Block.Air then (n : ℚ) + 1
            else hsbScan B H c xi zi n) = hsbScan B H c xi zi n
          rw [if_neg (by simpa using hs)]
        rcases ih with ⟨y, hy, hsol, hval, hair⟩ | ⟨hval, hair⟩
        · refine Or.inl ⟨y, Nat.lt_succ_of_lt hy, hsol, heq ▸ hval, ?_⟩
          intro y2 h1 h2
          rcases Nat.lt_succ_iff_lt_or_eq.mp h2 with h | h
          · exact hair y2 h1 h
          · rw [h]; exact hs
        · refine Or.inr ⟨heq ▸ hval, ?_⟩
          intro y2 h2
          rcases Nat.lt_succ_iff_lt_or_eq.mp h2 with h | h
          · exact hair y2 h
          · rw [h]; exact hs

/-- C2: highest_solid_below_chunk returns no result exactly when the
floored (x, z) lies outside the addressable extent; for an addressable
column it returns the height just above the topmost non-air cell at or
below min(floor(max_y), CHUNK_HEIGHT - 1), or ground level 0 when every
scanned cell of the column is air. -/
theorem highest_solid_below_spec (B : Int → Int → Biome)
    (H : Int → Int → Biome → Nat) (c : Chunk) (x z max_y : ℚ) :
    HsbSpec B H c x z max_y := by
  unfold HsbSpec highest_solid_below_chunk
  by_cases hout : floorToI32 x < 0 ∨ floorToI32 z < 0 ∨
      (CHUNK_WIDTH : Int) ≤ floorToI32 x ∨ (CHUNK_DEPTH : Int) ≤ floorToI32 z
  · rw [if_pos hout]
    refine ⟨by simpa using hout, ?_⟩
    intro v hv
    cases hv
  · rw [if_neg hout]
    refine ⟨by simpa using hout, ?_⟩
    intro v hv
    have hv2 : hsbScan B H c (floorToI32 x) (floorToI32 z)
        (min (floorToI32 max_y) ((CHUNK_HEIGHT : Int) - 1) + 1).toNat = v :=
      Option.some.inj hv
    rcases hsbScan_spec B H c (floorToI32 x) (floorToI32 z)
        (min (floorToI32 max_y) ((CHUNK_HEIGHT : Int) - 1) + 1).toNat with
      ⟨y, hy, hsol, hval, hair⟩ | ⟨hval, hair⟩
    · refine Or.inl ⟨(y : Int), by omega, by omega, hsol, ?_, ?_⟩
      · rw [← hv2, hval]
        push_cast
        ring
      · intro y2 h1 h2
        have h0 : 0 ≤ y2 := by omega
        have he : ((y2.toNat : Nat) : Int) = y2 := Int.toNat_of_nonneg h0
        rw [← he]
        exact hair y2.toNat (by omega) (by omega)
    · refine Or.inr ⟨by rw [← hv2, hval], ?_⟩
      intro y2 h1 h2
      have he : ((y2.toNat : Nat) : Int) = y2 := Int.toNat_of_nonneg h1
      rw [← he]
      exact hair y2.toNat (by omega)

/-- Witness for highest_solid_below_spec: on the all-air fresh chunk the
scan at (1.5, 1.5) resolves ground level 0 rather than declining. -/
theorem highest_solid_below_spec_witness :
    HsbSpec biomeSample heightSample Chunk.new (3 / 2) (3 / 2) 95 ∧
    highest_solid_below_chunk biomeSample heightSample Chunk.new (3 / 2)
      (3 / 2) 95 = some 0 :=
  ⟨highest_solid_below_spec biomeSample heightSample Chunk.new (3 / 2) (3 / 2)
     95,
   by with_unfolding_all decide⟩

/-! ### spawn_mob_at (claim C3) -/

/-- Counterexample to the claim that spawn_mob_at never creates a mob when
the column below has no solid ground: on a world whose chunk is entirely
air, every cell of the column below (1.5, 1.5) is air, yet the call adds a
mob (the downward scan resolves ground level 0 rather than declining). -/
theorem spawn_mob_empty_column_counterexample :
    (∀ y : Int, 0 ≤ y → y < (CHUNK_HEIGHT : Int) →
      worldAllAir.chunk.get_i32 biomeSample heightSample 1 y 1 = Block.Air) ∧
    (worldAllAir.spawn_mob_at biomeSample heightSample (3 / 2)
      (3 / 2)).mobs.length = worldAllAir.mobs.length + 1 := by
  constructor
  · intro y h0 h1
    show Chunk.new.get_i32 biomeSample heightSample 1 y 1 = Block.Air
    unfold Chunk.get_i32
    rw [if_neg (by simp only [CHUNK_HEIGHT] at h1 ⊢; omega)]
    dsimp only
    rw [if_pos (by constructor <;> [decide; constructor <;>
      [decide; constructor <;> decide]])]
    rfl
  · with_unfolding_all decide

/-- C3 (amended): spawn_mob_at declines exactly when the mob population
cap is reached or the column is outside the addressable extent; every
resolved ground height — including ground level 0 for an all-air column —
produces a mob two units above it, with the chunk untouched. -/
theorem spawn_mob_at_spec (B : Int → Int → Biome)
    (H : Int → Int → Biome → Nat) (w : World) (x z : ℚ) :
    SpawnSpec B H w x z := by
  unfold SpawnSpec World.spawn_mob_at World.highest_solid_below
  refine ⟨?_, ?_, ?_⟩
  · intro hcap
    rw [if_pos hcap]
  · intro hnone
    by_cases hcap : MAX_MOBS ≤ w.mobs.length
    · rw [if_pos hcap]
    · rw [if_neg hcap, hnone]
  · intro g hlen hsome
    rw [if_neg (by omega), hsome]
    exact ⟨rfl, rfl⟩

/-- Witness for spawn_mob_at_spec: on the all-air world the spawn at
(1.5, 1.5) resolves ground 0 and appends exactly the mob at height 2. -/
theorem spawn_mob_at_spec_witness :
    SpawnSpec biomeSample heightSample worldAllAir (3 / 2) (3 / 2) ∧
    (worldAllAir.spawn_mob_at biomeSample heightSample (3 / 2) (3 / 2)).mobs
      = worldAllAir.mobs ++ [spawnedMob (3 / 2) (3 / 2) 0] :=
  ⟨spawn_mob_at_spec biomeSample heightSample worldAllAir (3 / 2) (3 / 2),
   ((spawn_mob_at_spec biomeSample heightSample worldAllAir (3 / 2)
       (3 / 2)).2.2 0 (by decide) (by with_unfolding_all decide)).1⟩

/-! ### place_block_from_ray (claim C9) -/

theorem placeLoop_cons (B : Int → Int → Biome) (H : Int → Int → Biome → Nat)
    (w : World) (block : Block) (p : ℚ × ℚ × ℚ) (rest : List (ℚ × ℚ × ℚ))
    (la : Option (Nat × Nat × Nat)) :
    placeLoop B H w block (p :: rest) la =
      (if ¬ sampleInBounds p then placeLoop B H w block rest la
       else if w.chunk.get_i32 B H (cellOfSample p).1 (cellOfSample p).2.1
           (cellOfSample p).2.2 = Block.Air then
         placeLoop B H w block rest (some (airTarget p))
       else match la with
         | some a => (w.set_block a.1 a.2.1 a.2.2 block, true)
         | none => (w, false)) := rfl

theorem placeLoop_step_oob (B : Int → Int → Biome)
    (H : Int → Int → Biome → Nat) (w : World) (block : Block) (p : ℚ × ℚ × ℚ)
    (rest : List (ℚ × ℚ × ℚ)) (la : Option (Nat × Nat × Nat))
    (h : ¬ sampleInBounds p) :
    placeLoop B H w block (p :: rest) la = placeLoop B H w block rest la := by
  rw [placeLoop_cons, if_pos h]

theorem placeLoop_step_air (B : Int → Int → Biome)
    (H : Int → Int → Biome → Nat) (w : World) (block : Block) (p : ℚ × ℚ × ℚ)
    (rest : List (ℚ × ℚ × ℚ)) (la : Option (Nat × Nat × Nat))
    (h : sampleAir B H w p) :
    placeLoop B H w block (p :: rest) la =
      placeLoop B H w block rest (some (airTarget p)) := by
  rw [placeLoop_cons, if_neg (not_not_intro h.1), if_pos h.2]

theorem placeLoop_step_solid_some (B : Int → Int → Biome)
    (H : Int → Int → Biome → Nat) (w : World) (block : Block) (p : ℚ × ℚ × ℚ)
    (rest : List (ℚ × ℚ × ℚ)) (a : Nat × Nat × Nat)
    (h : sampleSolid B H w p) :
    placeLoop B H w block (p :: rest) (some a) =
      (w.set_block a.1 a.2.1 a.2.2 block, true) := by
  rw [placeLoop_cons, if_neg (not_not_intro h.1), if_neg h.2]

theorem placeLoop_step_solid_none (B : Int → Int → Biome)
    (H : Int → Int → Biome → Nat) (w : World) (block : Block) (p : ℚ × ℚ × ℚ)
    (rest : List (ℚ × ℚ × ℚ)) (h : sampleSolid B H w p) :
    placeLoop B H w block (p :: rest) none = (w, false) := by
  rw [placeLoop_cons, if_neg (not_not_intro h.1), if_neg h.2]

theorem placeLoop_run_oob (B : Int → Int → Biome)
    (H : Int → Int → Biome → Nat) (w : World) (block : Block) :
    ∀ (L M : List (ℚ × ℚ × ℚ)) (la : Option (Nat × Nat × Nat)),
      (∀ q ∈ L, ¬ sampleInBounds q) →
      placeLoop B H w block (L ++ M) la = placeLoop B H w block M la := by
  intro L
  induction L with
  | nil => intro M la h; rfl
  | cons q L ih =>
      intro M la h
      rw [List.cons_append,
        placeLoop_step_oob B H w block q (L ++ M) la (h q (List.mem_cons_self q L))]
      exact ih M la fun r hr => h r (List.mem_cons_of_mem q hr)

theorem placeLoop_run_no_solid (B : Int → Int → Biome)
    (H : Int → Int → Biome → Nat) (w : World) (block : Block) :
    ∀ (L M : List (ℚ × ℚ × ℚ)) (la : Option (Nat × Nat × Nat)),
      (∀ q ∈ L, ¬ sampleSolid B H w q) →
      ∃ la2, placeLoop B H w block (L ++ M) la = placeLoop B H w block M la2 := by
  intro L
  induction L with
  | nil => intro M la h; exact ⟨la, rfl⟩
  | cons q L ih =>
      intro M la h
      by_cases hin : sampleInBounds q
      · by_cases hair : w.chunk.get_i32 B H (cellOfSample q).1
            (cellOfSample q).2.1 (cellOfSample q).2.2 = Block.Air
        · rw [List.cons_append,
            placeLoop_step_air B H w block q (L ++ M) la ⟨hin, hair⟩]
          exact ih M (some (airTarget q)) fun r hr =>
            h r (List.mem_cons_of_mem q hr)
        · exact absurd ⟨hin, hair⟩ (h q (List.mem_cons_self q L))
      · rw [List.cons_append, placeLoop_step_oob B H w block q (L ++ M) la hin]
        exact ih M la fun r hr => h r (List.mem_cons_of_mem q hr)

/-- Counterexample to the claim that place_block_from_ray places the block
at the last empty cell visited along the ray: on the world with one stone
read back (through the world-frame lookup) at cell (4, 0, 4), a ray from
(3.5, 0.5, 4.5) along +x last visits the empty cell (3, 0, 4) before the
stone and the call reports success, yet afterwards that cell still reads
air — the block was written with the visited cell's world coordinates as
untranslated local indices, landing at world (-253, 0, -252) for the
chunk origin (-256, -256). -/
theorem place_block_from_ray_counterexample :
    (worldRayStone.place_block_from_ray idNormalize biomeSample heightSample
      ((7 : ℚ) / 2, 1 / 2, 9 / 2) (1, 0, 0) (1 / 2) Block.Planks).2
      = true ∧
    sampleAir biomeSample heightSample worldRayStone
      ((79 : ℚ) / 20, 1 / 2, 9 / 2) ∧
    cellOfSample ((79 : ℚ) / 20, 1 / 2, 9 / 2) = (3, 0, 4) ∧
    (worldRayStone.place_block_from_ray idNormalize biomeSample heightSample
      ((7 : ℚ) / 2, 1 / 2, 9 / 2) (1, 0, 0) (1 / 2)
      Block.Planks).1.chunk.get_i32 biomeSample heightSample 3 0 4
      = Block.Air ∧
    (worldRayStone.place_block_from_ray idNormalize biomeSample heightSample
      ((7 : ℚ) / 2, 1 / 2, 9 / 2) (1, 0, 0) (1 / 2)
      Block.Planks).1.chunk.get_i32 biomeSample heightSample (-253) 0 (-252)
      = Block.Planks := by
  refine ⟨?_, ?_, ?_, ?_, ?_⟩ <;> with_unfolding_all decide

/-- C9 (amended): place_block_from_ray fails without change for the air
block, a zero-length direction, a march whose in-bounds samples are all
air, or a first in-bounds solid sample preceded by no in-bounds air
sample; when a first in-bounds solid sample is preceded by a last
in-bounds air sample, it reports success and writes the block through the
guarded set operation with that cell's world coordinates used directly as
local array indices — displaced from the visited cell by minus the chunk
origin, so for a non-zero origin the visited cell itself is not the cell
that changes. -/
theorem place_block_from_ray_spec (normalize : ℚ × ℚ × ℚ → ℚ × ℚ × ℚ)
    (B : Int → Int → Biome) (H : Int → Int → Biome → Nat) (w : World)
    (origin direction : ℚ × ℚ × ℚ) (max_distance : ℚ) (block : Block) :
    PlaceSpec normalize B H w origin direction max_distance block := by
  unfold PlaceSpec World.place_block_from_ray
  refine ⟨?_, ?_, ?_⟩
  · intro hb
    rw [if_pos hb]
  · intro hd
    by_cases hb : block = Block.Air
    · rw [if_pos hb]
    · rw [if_neg hb, if_pos (by rw [hd]; unfold magnitude2; norm_num)]
  · intro hb hm
    rw [if_neg hb, if_neg hm]
    constructor
    · intro hnos
      obtain ⟨la2, he⟩ := placeLoop_run_no_solid B H w block
        (raySamples origin (normalize direction) max_distance (1 / 20)) []
        none hnos
      rw [List.append_nil] at he
      rw [he]
      rfl
    · intro pre p post hdecomp hpres hpsolid
      constructor
      · intro hnoair
        have hoob : ∀ q ∈ pre, ¬ sampleInBounds q := by
          intro q hq hin
          by_cases ha : w.chunk.get_i32 B H (cellOfSample q).1
              (cellOfSample q).2.1 (cellOfSample q).2.2 = Block.Air
          · exact hnoair q hq ⟨hin, ha⟩
          · exact hpres q hq ⟨hin, ha⟩
        rw [hdecomp, placeLoop_run_oob B H w block pre (p :: post) none hoob,
          placeLoop_step_solid_none B H w block p post hpsolid]
      · intro pre2 a post2 hdec2 haira hnoair2
        have hoob2 : ∀ q ∈ post2, ¬ sampleInBounds q := by
          intro q hq hin
          by_cases ha : w.chunk.get_i32 B H (cellOfSample q).1
              (cellOfSample q).2.1 (cellOfSample q).2.2 = Block.Air
          · exact hnoair2 q hq ⟨hin, ha⟩
          · exact hpres q (by
              rw [hdec2]
              exact List.mem_append_right pre2 (List.mem_cons_of_mem a hq))
              ⟨hin, ha⟩
        obtain ⟨la2, he⟩ := placeLoop_run_no_solid B H w block pre2
          (a :: (post2 ++ p :: post)) none (by
            intro q hq
            exact hpres q (by rw [hdec2]; exact List.mem_append_left _ hq))
        rw [hdecomp, hdec2]
        have hshape : (pre2 ++ a :: post2) ++ p :: post =
            pre2 ++ (a :: (post2 ++ p :: post)) := by
          simp [List.append_assoc]
        rw [hshape, he,
          placeLoop_step_air B H w block a (post2 ++ p :: post) la2 haira,
          placeLoop_run_oob B H w block post2 (p :: post)
            (some (airTarget a)) hoob2,
          placeLoop_step_solid_some B H w block p post (airTarget a) hpsolid]

/-- Witness for place_block_from_ray_spec: on the world with one stone at
world cell (4, 0, 4), a ray from (3.5, 0.5, 4.5) along +x with budget 0.5
marches ten air samples in cell (3, 0, 4) and then hits the stone, so the
block is placed at local (3, 0, 4) and the call reports success. -/
theorem place_block_from_ray_spec_witness :
    PlaceSpec idNormalize biomeSample heightSample worldRayStone
      ((7 : ℚ) / 2, 1 / 2, 9 / 2) (1, 0, 0) (1 / 2) Block.Planks ∧
    worldRayStone.place_block_from_ray idNormalize biomeSample heightSample
      ((7 : ℚ) / 2, 1 / 2, 9 / 2) (1, 0, 0) (1 / 2) Block.Planks
      = (worldRayStone.set_block 3 0 4 Block.Planks, true) := by
  refine ⟨place_block_from_ray_spec idNormalize biomeSample heightSample
    worldRayStone ((7 : ℚ) / 2, 1 / 2, 9 / 2) (1, 0, 0) (1 / 2)
    Block.Planks, ?_⟩
  have h := ((place_block_from_ray_spec idNormalize biomeSample heightSample
      worldRayStone ((7 : ℚ) / 2, 1 / 2, 9 / 2) (1, 0, 0) (1 / 2)
      Block.Planks).2.2 (by decide) (by with_unfolding_all decide)).2
    ((List.range 10).map fun (k : Nat) => (((70 : ℚ) + (k : ℚ)) / 20, 1 / 2, 9 / 2))
    ((4 : ℚ), 1 / 2, 9 / 2) []
    (by with_unfolding_all decide)
    (by with_unfolding_all decide)
    (by with_unfolding_all decide)
  have h2 := h.2
    ((List.range 9).map fun (k : Nat) => (((70 : ℚ) + (k : ℚ)) / 20, 1 / 2, 9 / 2))
    (((79 : ℚ)) / 20, 1 / 2, 9 / 2) []
    (by with_unfolding_all decide)
    (by with_unfolding_all decide)
    (by with_unfolding_all decide)
  have hat : airTarget (((79 : ℚ)) / 20, 1 / 2, 9 / 2) = (3, 0, 4) := by
    with_unfolding_all decide
  rw [hat] at h2
  exact h2

/-! ### explode_at (claim C4) -/

/-- Counterexample to the claim that explode_at clears every non-empty
cell whose center lies within the radius: on the world with one stone
read back (through the world-frame lookup) at cell (44, 5, 44), an
explosion centered on that cell with radius 0.4 reports a change, yet the
cell still reads stone afterwards — the routine tests cells through the
origin-translated lookup but clears the untranslated local indices. -/
theorem explode_at_counterexample :
    cellDist2 ((89 : ℚ) / 2, 11 / 2, 89 / 2) (44, 5, 44)
      ≤ (2 / 5 : ℚ) * (2 / 5) ∧
    worldOneStone.chunk.get_i32 biomeSample heightSample 44 5 44
      = Block.Stone ∧
    (worldOneStone.explode_at biomeSample heightSample
      ((89 : ℚ) / 2, 11 / 2, 89 / 2) (2 / 5)).2 = true ∧
    (worldOneStone.explode_at biomeSample heightSample
      ((89 : ℚ) / 2, 11 / 2, 89 / 2) (2 / 5)).1.chunk.get_i32 biomeSample
      heightSample 44 5 44 = Block.Stone := by
  refine ⟨?_, ?_, ?_, ?_⟩ <;> with_unfolding_all decide

theorem index_eq512 (x y z : Nat) :
    Chunk.index x y z = x + z * 512 + y * 512 * 512 := rfl

theorem index_inj (x1 y1 z1 x2 y2 z2 : Nat) (hx1 : x1 < 512) (hz1 : z1 < 512)
    (hx2 : x2 < 512) (hz2 : z2 < 512)
    (h : Chunk.index x1 y1 z1 = Chunk.index x2 y2 z2) :
    x1 = x2 ∧ y1 = y2 ∧ z1 = z2 := by
  rw [index_eq512, index_eq512] at h
  omega

theorem castUsize_toNat (i : Int) (h0 : 0 ≤ i) (h1 : i < 2 ^ 31) :
    castUsize i = i.toNat := by
  unfold castUsize
  have he : i % 2 ^ 64 = i := Int.emod_eq_of_lt h0 (by omega)
  rw [he]

theorem castUsize_ge (i : Int) (hneg : i < 0) (hge : -(2 ^ 31) ≤ i) :
    4096 ≤ castUsize i := by
  unfold castUsize
  have he : i % 2 ^ 64 = i + 2 ^ 64 := by omega
  rw [he]
  omega

theorem break_block_origin_x (w : World) (x y z : Nat) :
    (w.break_block x y z).chunk.origin_x = w.chunk.origin_x := by
  unfold World.break_block
  split
  · exact set_origin_x _ _ _ _ _
  · rfl

theorem break_block_origin_z (w : World) (x y z : Nat) :
    (w.break_block x y z).chunk.origin_z = w.chunk.origin_z := by
  unfold World.break_block
  split
  · exact set_origin_z _ _ _ _ _
  · rfl

theorem break_block_mobs (w : World) (x y z : Nat) :
    (w.break_block x y z).mobs = w.mobs := by
  unfold World.break_block
  split
  · rfl
  · rfl

theorem break_block_blocks (w : World) (x y z : Nat) (i : Nat) :
    (w.break_block x y z).chunk.blocks i =
      if x < CHUNK_WIDTH ∧ y < CHUNK_HEIGHT ∧ z < CHUNK_DEPTH ∧
          i = Chunk.index x y z
      then Block.Air else w.chunk.blocks i := by
  unfold World.break_block
  by_cases hb : x < CHUNK_WIDTH ∧ y < CHUNK_HEIGHT ∧ z < CHUNK_DEPTH
  · rw [if_pos hb]
    show (w.chunk.set x y z Block.Air).blocks i = _
    rw [set_blocks w.chunk x y z Block.Air hb i]
    by_cases hi : i = Chunk.index x y z
    · rw [if_pos hi, if_pos ⟨hb.1, hb.2.1, hb.2.2, hi⟩]
    · rw [if_neg hi, if_neg (by tauto)]
  · rw [if_neg hb, if_neg (by tauto)]

theorem mem_intRange (a lo hi : Int) :
    a ∈ intRange lo hi ↔ lo ≤ a ∧ a ≤ hi := by
  unfold intRange
  constructor
  · intro h
    obtain ⟨k, hk, he⟩ := List.mem_map.mp h
    rw [List.mem_range] at hk
    omega
  · intro h
    apply List.mem_map.mpr
    refine ⟨(a - lo).toNat, ?_, ?_⟩
    · rw [List.mem_range]; omega
    · omega

theorem intRange_pairwise (lo hi : Int) :
    (intRange lo hi).Pairwise (· < ·) := by
  unfold intRange
  rw [List.pairwise_map]
  exact (List.pairwise_lt_range _).imp (by intro a b h; omega)

theorem mem_explodeCells (a b c lo1 hi1 lo2 hi2 lo3 hi3 : Int) :
    (a, b, c) ∈ explodeCells lo1 hi1 lo2 hi2 lo3 hi3 ↔
      (lo1 ≤ a ∧ a ≤ hi1 ∧ lo2 ≤ b ∧ b ≤ hi2 ∧ lo3 ≤ c ∧ c ≤ hi3) := by
  unfold explodeCells
  simp only [List.mem_flatMap, List.mem_map, mem_intRange]
  constructor
  · rintro ⟨x, hx, y, hy, z, hz, heq⟩
    cases heq
    exact ⟨hx.1, hx.2, hy.1, hy.2, hz.1, hz.2⟩
  · rintro ⟨h1, h2, h3, h4, h5, h6⟩
    exact ⟨a, ⟨h1, h2⟩, b, ⟨h3, h4⟩, c, ⟨h5, h6⟩, rfl⟩

theorem explodeCells_pairwise (lo1 hi1 lo2 hi2 lo3 hi3 : Int) :
    (explodeCells lo1 hi1 lo2 hi2 lo3 hi3).Pairwise cellLt := by
  unfold explodeCells
  rw [List.pairwise_flatMap]
  constructor
  · intro x hx
    rw [List.pairwise_flatMap]
    constructor
    · intro y hy
      rw [List.pairwise_map]
      refine (intRange_pairwise _ _).imp ?_
      intro a b hab
      exact Or.inr ⟨rfl, Or.inr ⟨rfl, hab⟩⟩
    · refine (intRange_pairwise _ _).imp ?_
      intro a b hab p hp q hq
      simp only [List.mem_map] at hp hq
      obtain ⟨z1, hz1, he1⟩ := hp
      obtain ⟨z2, hz2, he2⟩ := hq
      rw [← he1, ← he2]
      exact Or.inr ⟨rfl, Or.inl hab⟩
  · refine (intRange_pairwise _ _).imp ?_
    intro a b hab p hp q hq
    simp only [List.mem_flatMap, List.mem_map] at hp hq
    obtain ⟨y1, hy1, z1, hz1, he1⟩ := hp
    obtain ⟨y2, hy2, z2, hz2, he2⟩ := hq
    rw [← he1, ← he2]
    exact Or.inl hab

theorem explode_at_eq (B : Int → Int → Biome) (H : Int → Int → Biome → Nat)
    (w : World) (center : ℚ × ℚ × ℚ) (radius : ℚ) :
    w.explode_at B H center radius =
      (explodeBox center radius).foldl
        (explodeStep B H center (radius * radius)) (w, false) := rfl

theorem explode_get_agree (B : Int → Int → Biome)
    (H : Int → Int → Biome → Nat) (w0 : World) (s1 : World)
    (center : ℚ × ℚ × ℚ) (r2 : ℚ) (L1 : List (Int × Int × Int))
    (hox : w0.chunk.origin_x ≤ 0) (hoz : w0.chunk.origin_z ≤ 0)
    (ho1 : s1.chunk.origin_x = w0.chunk.origin_x)
    (ho2 : s1.chunk.origin_z = w0.chunk.origin_z)
    (hblocks : ∀ i, s1.chunk.blocks i =
      if ∃ cell ∈ L1, explodeHits B H w0 center r2 cell i then Block.Air
      else w0.chunk.blocks i)
    (cx cy cz : Int) (hlt : ∀ cell ∈ L1, cellLt cell (cx, cy, cz)) :
    s1.chunk.get_i32 B H cx cy cz = w0.chunk.get_i32 B H cx cy cz := by
  unfold Chunk.get_i32
  by_cases hy : cy < 0 ∨ (CHUNK_HEIGHT : Int) ≤ cy
  · rw [if_pos hy, if_pos hy]
  · rw [if_neg hy, if_neg hy]
    dsimp only
    rw [ho1, ho2]
    by_cases hin : 0 ≤ cx - w0.chunk.origin_x ∧ 0 ≤ cz - w0.chunk.origin_z ∧
        cx - w0.chunk.origin_x < (CHUNK_WIDTH : Int) ∧
        cz - w0.chunk.origin_z < (CHUNK_DEPTH : Int)
    · rw [if_pos hin, if_pos hin, hblocks]
      have hno : ¬ ∃ cell ∈ L1, explodeHits B H w0 center r2 cell
          (Chunk.index (cx - w0.chunk.origin_x).toNat cy.toNat
            (cz - w0.chunk.origin_z).toNat) := by
        rintro ⟨⟨c1, c2, c3⟩, hmem, hhit⟩
        unfold explodeHits at hhit
        obtain ⟨-, -, h0x, h1x, h0y, h1y, h0z, h1z, hidx⟩ := hhit
        dsimp only at h0x h1x h0y h1y h0z h1z hidx
        push_neg at hy
        have hinj := index_inj c1.toNat c2.toNat c3.toNat
          (cx - w0.chunk.origin_x).toNat cy.toNat
          (cz - w0.chunk.origin_z).toNat
          (by simp only [CHUNK_WIDTH] at h1x; omega) (by
            simp only [CHUNK_DEPTH] at h1z; omega) (by
            simp only [CHUNK_WIDTH] at hin; omega) (by
            simp only [CHUNK_DEPTH] at hin; omega) hidx.symm
        have hl := hlt (c1, c2, c3) hmem
        unfold cellLt at hl
        dsimp only at hl
        simp only [CHUNK_HEIGHT] at hy
        omega
      rw [if_neg hno]
    · rw [if_neg hin, if_neg hin]

theorem exists_append_single {α : Type} (P : α → Prop) (L : List α) (c : α) :
    (∃ x ∈ L ++ [c], P x) ↔ ((∃ x ∈ L, P x) ∨ P c) := by
  constructor
  · rintro ⟨x, hm, hp⟩
    rcases List.mem_append.mp hm with h | h
    · exact Or.inl ⟨x, h, hp⟩
    · rw [List.mem_singleton.mp h] at hp
      exact Or.inr hp
  · rintro (⟨x, hm, hp⟩ | hp)
    · exact ⟨x, List.mem_append_left _ hm, hp⟩
    · exact ⟨c, List.mem_append_right _ (List.mem_singleton_self c), hp⟩

theorem explodeFold (B : Int → Int → Biome) (H : Int → Int → Biome → Nat)
    (w0 : World) (center : ℚ × ℚ × ℚ) (r2 : ℚ) (lo1 hi1 lo2 hi2 lo3 hi3 : Int)
    (hox : w0.chunk.origin_x ≤ 0) (hoz : w0.chunk.origin_z ≤ 0)
    (hr1 : -(2 ^ 31) ≤ lo1) (hr2 : hi1 < 2 ^ 31) (hr3 : -(2 ^ 31) ≤ lo2)
    (hr4 : hi2 < 2 ^ 31) (hr5 : -(2 ^ 31) ≤ lo3) (hr6 : hi3 < 2 ^ 31) :
    ∀ (L2 L1 : List (Int × Int × Int)),
      explodeCells lo1 hi1 lo2 hi2 lo3 hi3 = L1 ++ L2 →
      ∀ s : World × Bool,
      s.1.chunk.origin_x = w0.chunk.origin_x →
      s.1.chunk.origin_z = w0.chunk.origin_z →
      s.1.mobs = w0.mobs →
      (∀ i, s.1.chunk.blocks i =
        if ∃ cell ∈ L1, explodeHits B H w0 center r2 cell i then Block.Air
        else w0.chunk.blocks i) →
      (s.2 = true ↔ ∃ cell ∈ L1, cellDist2 center cell ≤ r2 ∧
        w0.chunk.get_i32 B H cell.1 cell.2.1 cell.2.2 ≠ Block.Air) →
      ((L2.foldl (explodeStep B H center r2) s).1.chunk.origin_x
          = w0.chunk.origin_x ∧
       (L2.foldl (explodeStep B H center r2) s).1.chunk.origin_z
          = w0.chunk.origin_z ∧
       (L2.foldl (explodeStep B H center r2) s).1.mobs = w0.mobs ∧
       (∀ i, (L2.foldl (explodeStep B H center r2) s).1.chunk.blocks i =
         if ∃ cell ∈ L1 ++ L2, explodeHits B H w0 center r2 cell i
         then Block.Air else w0.chunk.blocks i) ∧
       ((L2.foldl (explodeStep B H center r2) s).2 = true ↔
         ∃ cell ∈ L1 ++ L2, cellDist2 center cell ≤ r2 ∧
           w0.chunk.get_i32 B H cell.1 cell.2.1 cell.2.2 ≠ Block.Air)) := by
  intro L2
  induction L2 with
  | nil =>
      intro L1 hsplit s h1 h2 h3 h4 h5
      rw [List.append_nil]
      exact ⟨h1, h2, h3, h4, h5⟩
  | cons c L2 ih =>
      intro L1 hsplit s h1 h2 h3 h4 h5
      obtain ⟨c1, c2, c3⟩ := c
      rw [List.foldl_cons]
      have hpw := explodeCells_pairwise lo1 hi1 lo2 hi2 lo3 hi3
      rw [hsplit] at hpw
      have hlt : ∀ cell ∈ L1, cellLt cell (c1, c2, c3) := by
        intro cell hm
        exact (List.pairwise_append.mp hpw).2.2 cell hm (c1, c2, c3)
          (List.mem_cons_self _ _)
      have hagree : s.1.chunk.get_i32 B H c1 c2 c3
          = w0.chunk.get_i32 B H c1 c2 c3 :=
        explode_get_agree B H w0 s.1 center r2 L1 hox hoz h1 h2 h4 c1 c2 c3 hlt
      have hmemc : (c1, c2, c3) ∈ explodeCells lo1 hi1 lo2 hi2 lo3 hi3 := by
        rw [hsplit]
        exact List.mem_append_right L1 (List.mem_cons_self _ _)
      have hbnd := (mem_explodeCells c1 c2 c3 lo1 hi1 lo2 hi2 lo3 hi3).mp hmemc
      have hshape : (L1 ++ [(c1, c2, c3)]) ++ L2 = L1 ++ (c1, c2, c3) :: L2 := by
        simp
      by_cases hcond : cellDist2 center (c1, c2, c3) ≤ r2 ∧
          s.1.chunk.get_i32 B H c1 c2 c3 ≠ Block.Air
      · have hw0get : w0.chunk.get_i32 B H c1 c2 c3 ≠ Block.Air :=
          hagree ▸ hcond.2
        have hstep : explodeStep B H center r2 s (c1, c2, c3) =
            (s.1.break_block (castUsize c1) (castUsize c2) (castUsize c3),
              true) := by
          unfold explodeStep
          dsimp only
          rw [if_pos hcond]
        rw [hstep]
        have hres := ih (L1 ++ [(c1, c2, c3)]) (by rw [hsplit, hshape])
          (s.1.break_block (castUsize c1) (castUsize c2) (castUsize c3), true)
          (by dsimp only; rw [break_block_origin_x]; exact h1)
          (by dsimp only; rw [break_block_origin_z]; exact h2)
          (by dsimp only; rw [break_block_mobs]; exact h3)
          ?hbl ?hfl
        case hbl =>
          intro i
          dsimp only
          rw [break_block_blocks, h4 i]
          by_cases hbrk : castUsize c1 < CHUNK_WIDTH ∧
              castUsize c2 < CHUNK_HEIGHT ∧ castUsize c3 < CHUNK_DEPTH ∧
              i = Chunk.index (castUsize c1) (castUsize c2) (castUsize c3)
          · rw [if_pos hbrk]
            have hc1 : 0 ≤ c1 := by
              by_contra hneg
              push_neg at hneg
              have := castUsize_ge c1 hneg (by omega)
              simp only [CHUNK_WIDTH] at hbrk
              omega
            have hc2 : 0 ≤ c2 := by
              by_contra hneg
              push_neg at hneg
              have := castUsize_ge c2 hneg (by omega)
              simp only [CHUNK_HEIGHT] at hbrk
              omega
            have hc3 : 0 ≤ c3 := by
              by_contra hneg
              push_neg at hneg
              have := castUsize_ge c3 hneg (by omega)
              simp only [CHUNK_DEPTH] at hbrk
              omega
            have e1 : castUsize c1 = c1.toNat := castUsize_toNat c1 hc1 (by omega)
            have e2 : castUsize c2 = c2.toNat := castUsize_toNat c2 hc2 (by omega)
            have e3 : castUsize c3 = c3.toNat := castUsize_toNat c3 hc3 (by omega)
            rw [if_pos ((exists_append_single
              (explodeHits B H w0 center r2 · i) L1 (c1, c2, c3)).mpr
              (Or.inr ?hhit))]
            case hhit =>
              unfold explodeHits
              dsimp only
              rw [e1, e2, e3] at hbrk
              refine ⟨hcond.1, hw0get, hc1, ?_, hc2, ?_, hc3, ?_, hbrk.2.2.2⟩
              · simp only [CHUNK_WIDTH] at hbrk ⊢; omega
              · simp only [CHUNK_HEIGHT] at hbrk ⊢; omega
              · simp only [CHUNK_DEPTH] at hbrk ⊢; omega
          · rw [if_neg hbrk]
            by_cases hex : ∃ cell ∈ L1, explodeHits B H w0 center r2 cell i
            · rw [if_pos hex, if_pos ((exists_append_single
                (explodeHits B H w0 center r2 · i) L1 (c1, c2, c3)).mpr
                (Or.inl hex))]
            · rw [if_neg hex, if_neg (fun hx => ?hni)]
              case hni =>
                rcases (exists_append_single
                    (explodeHits B H w0 center r2 · i) L1 (c1, c2, c3)).mp hx
                  with h | hch
                · exact hex h
                · unfold explodeHits at hch
                  dsimp only at hch
                  obtain ⟨-, -, g1, g2, g3, g4, g5, g6, gidx⟩ := hch
                  apply hbrk
                  have e1 : castUsize c1 = c1.toNat :=
                    castUsize_toNat c1 g1 (by omega)
                  have e2 : castUsize c2 = c2.toNat :=
                    castUsize_toNat c2 g3 (by omega)
                  have e3 : castUsize c3 = c3.toNat :=
                    castUsize_toNat c3 g5 (by omega)
                  rw [e1, e2, e3]
                  refine ⟨?_, ?_, ?_, gidx⟩
                  · simp only [CHUNK_WIDTH] at g2 ⊢; omega
                  · simp only [CHUNK_HEIGHT] at g4 ⊢; omega
                  · simp only [CHUNK_DEPTH] at g6 ⊢; omega
        case hfl =>
          dsimp only
          rw [(exists_append_single
            (fun cell => cellDist2 center cell ≤ r2 ∧
              w0.chunk.get_i32 B H cell.1 cell.2.1 cell.2.2 ≠ Block.Air) L1
            (c1, c2, c3) : _)]
          exact ⟨fun _ => Or.inr ⟨hcond.1, hw0get⟩, fun _ => rfl⟩
        simp only [hshape] at hres
        exact hres
      · have hstep : explodeStep B H center r2 s (c1, c2, c3) = s := by
          unfold explodeStep
          dsimp only
          rw [if_neg hcond]
        rw [hstep]
        have hncell : ¬ (cellDist2 center (c1, c2, c3) ≤ r2 ∧
            w0.chunk.get_i32 B H c1 c2 c3 ≠ Block.Air) := by
          intro hc
          exact hcond ⟨hc.1, hagree ▸ hc.2⟩
        have hres := ih (L1 ++ [(c1, c2, c3)]) (by rw [hsplit, hshape]) s h1 h2
          h3 ?hbl2 ?hfl2
        case hbl2 =>
          intro i
          rw [h4 i]
          by_cases hex : ∃ cell ∈ L1, explodeHits B H w0 center r2 cell i
          · rw [if_pos hex, if_pos ((exists_append_single
              (explodeHits B H w0 center r2 · i) L1 (c1, c2, c3)).mpr
              (Or.inl hex))]
          · rw [if_neg hex, if_neg (fun hx => ?hni2)]
            case hni2 =>
              rcases (exists_append_single
                  (explodeHits B H w0 center r2 · i) L1 (c1, c2, c3)).mp hx
                with h | hch
              · exact hex h
              · unfold explodeHits at hch
                dsimp only at hch
                exact hncell ⟨hch.1, hch.2.1⟩
        case hfl2 =>
          rw [h5,
            (exists_append_single
              (fun cell => cellDist2 center cell ≤ r2 ∧
                w0.chunk.get_i32 B H cell.1 cell.2.1 cell.2.2 ≠ Block.Air) L1
              (c1, c2, c3) : _)]
          constructor
          · exact fun h => Or.inl h
          · rintro (h | h)
            · exact h
            · exact absurd h hncell
        simp only [hshape] at hres
        exact hres

theorem floorToI32_ge (q : ℚ) : -(2 ^ 31) ≤ floorToI32 q := le_max_left _ _

theorem ceilToI32_lt (q : ℚ) : ceilToI32 q < 2 ^ 31 := by
  unfold ceilToI32
  apply max_lt
  · norm_num
  · exact lt_of_le_of_lt (min_le_left _ _) (by norm_num)

/-- C4 (amended): on a world whose chunk origin offsets are non-positive
(as every chunk of this program is constructed), explode_at reports true
iff some bounding-box cell with center within the radius (inclusive, a ≤
comparison) reads non-air through the world-frame lookup — possibly an
out-of-bounds cell answered by the procedural fallback, in which case true
is reported without any stored change; the stored cells that change are
exactly the ones whose local indices equal the world coordinates of such
tested cells (clearing is displaced by minus the origin relative to the
tested cell), each set to air; every other stored cell and the mob list
are untouched. -/
theorem explode_at_spec (B : Int → Int → Biome) (H : Int → Int → Biome → Nat)
    (w : World) (center : ℚ × ℚ × ℚ) (radius : ℚ)
    (hox : w.chunk.origin_x ≤ 0) (hoz : w.chunk.origin_z ≤ 0) :
    ExplodeSpec B H w center radius := by
  have hres := explodeFold B H w center (radius * radius)
    (floorToI32 (center.1 - radius)) (ceilToI32 (center.1 + radius))
    (floorToI32 (center.2.1 - radius)) (ceilToI32 (center.2.1 + radius))
    (floorToI32 (center.2.2 - radius)) (ceilToI32 (center.2.2 + radius))
    hox hoz (floorToI32_ge _) (ceilToI32_lt _) (floorToI32_ge _)
    (ceilToI32_lt _) (floorToI32_ge _) (ceilToI32_lt _)
    (explodeCells (floorToI32 (center.1 - radius))
      (ceilToI32 (center.1 + radius)) (floorToI32 (center.2.1 - radius))
      (ceilToI32 (center.2.1 + radius)) (floorToI32 (center.2.2 - radius))
      (ceilToI32 (center.2.2 + radius))) [] (by simp) (w, false) rfl rfl rfl
    (fun i => (if_neg (by
      rintro ⟨c, hc, -⟩
      exact absurd hc (List.not_mem_nil c))).symm)
    (by
      constructor
      · intro h
        exact absurd h (by simp)
      · rintro ⟨c, hc, -⟩
        exact absurd hc (List.not_mem_nil c))
  have hbox : explodeBox center radius = explodeCells
      (floorToI32 (center.1 - radius)) (ceilToI32 (center.1 + radius))
      (floorToI32 (center.2.1 - radius)) (ceilToI32 (center.2.1 + radius))
      (floorToI32 (center.2.2 - radius)) (ceilToI32 (center.2.2 + radius)) :=
    rfl
  simp only [← hbox, List.nil_append] at hres
  unfold ExplodeSpec
  rw [explode_at_eq]
  exact ⟨hres.2.2.2.2, hres.2.2.2.1, hres.2.2.1⟩

/-- Witness for explode_at_spec on the one-stone world (chunk origin
(-256, -256)) with the radius-0.4 explosion at (44.5, 5.5, 44.5). -/
theorem explode_at_spec_witness :
    (worldOneStone.chunk.origin_x ≤ 0 ∧ worldOneStone.chunk.origin_z ≤ 0) ∧
    ExplodeSpec biomeSample heightSample worldOneStone
      ((89 : ℚ) / 2, 11 / 2, 89 / 2) (2 / 5) :=
  ⟨⟨by decide, by decide⟩,
   explode_at_spec biomeSample heightSample worldOneStone
     ((89 : ℚ) / 2, 11 / 2, 89 / 2) (2 / 5) (by decide) (by decide)⟩
